import Mathlib

/-!
# Qlink: a serial command dispatcher

A shallow embedding of `src/Qlink.h` and `src/Qlink.cpp`.

Conventions of the embedding.

* A C string is the list of its characters before the terminating NUL.
* The registry `commands[0 .. commandCount-1]` is a list; `commandCount` is its length.
* The stream `port` is the list `rx` of bytes still to be read and the `trace` of what was
  written to it; the trace also records every handler invocation.
* A handler is identified by its address (a number); what the code behind that address
  does is given by a `HandlerTable`: the `response` calls it makes with the arguments it got.
* Behaviour that C leaves undefined (a copy past the end of a buffer, an integer
  conversion whose value is out of range) is an explicit `Fault`.
* Whether `malloc`/`strdup` succeeds for the i-th argument of a tick is given by `alloc i`.
* `int` and `long` are 32 bits wide.
* `atof` is embedded as the exact decimal value of decimal input; what is stated about it is
  stated for tokens on which binary rounding, `inf`, `nan` and hexadecimal input cannot
  matter (`SmallDecimal`, `Rounded`).
* `format` embeds the `%s`, `%d` and `%%` of `vsnprintf`; what is stated about the text
  of a rendering is stated for the templates `rendering` covers.
-/

set_option linter.dupNamespace false

namespace QlinkLib

/-! ## Constants and data model (Qlink.h) -/

/-- Maximum number of arguments per command. -/
def MAX_VALUES : Nat := 3

/-- Size of the response buffer. -/
def MAX_RESPONSE_LENGTH : Nat := 100

/-- Maximum number of commands that can be registered. -/
def MAX_COMMANDS : Nat := 20

/-- Supported argument types (`enum Args`). -/
inductive Args where
  | INT
  | FLOAT
  | STRING
  | LONG
deriving DecidableEq, Repr

/-- One registered command (`struct Command`). `paramTypes` holds the slots of the C array
that `reg` wrote, `handler` the address of the handler. -/
structure Command where
  name : List Char
  handler : Nat
  paramCount : Int
  paramTypes : List Args
deriving DecidableEq, Repr

/-- Undefined behaviour the code can run into. -/
inductive Fault where
  /-- The `memcpy` of `reg` leaves `paramTypes[MAX_VALUES]` or the caller's array. -/
  | regParamTypes
  /-- `parseCommand` writes past `command[20]`. -/
  | commandBuffer
  /-- `parseCommand` writes past `args[30]`. -/
  | argsBuffer
  /-- The `strncpy` of `parseAndValidateArgs` leaves `argsCopy[50]` without terminator. -/
  | argsCopy
  /-- `parseAndValidateArgs` reads a `paramTypes` slot that `reg` never wrote. -/
  | paramTypeSlot
  /-- The value `atoi` parsed is not representable as `int`. -/
  | intRange
  /-- The value `atof` parsed, truncated, is not representable as `long`. -/
  | longRange
deriving DecidableEq, Repr

/-- A decimal number `mant * 10 ^ exp`: the exact value of the text `atof` parsed
(rounding to the binary floating-point format is not modelled). -/
structure Dec where
  mant : Int
  exp : Int
deriving DecidableEq, Repr

/-- One converted argument, as stored behind `params[i]`. -/
inductive Param where
  | int (v : Int)
  | float (v : Dec)
  | long (v : Int)
  | str (s : List Char)
deriving DecidableEq, Repr

/-- A variadic argument of `response`. -/
inductive FmtArg where
  | int (v : Int)
  | str (s : List Char)
deriving DecidableEq, Repr

/-- What is observable of a run: a line written with `port.println`, or a handler call. -/
inductive Event where
  | println (text : List Char)
  | call (handler : Nat) (params : List Param)
deriving DecidableEq, Repr

/-- The code behind the handler addresses: for the arguments a handler receives, the
`response(format, ...)` calls it makes, in order. -/
abbrev HandlerTable := Nat → List Param → List (List Char × List FmtArg)

/-- State of a `Qlink` object together with the global `status` and its stream. -/
structure Qlink where
  commands : List Command
  status : Bool
  rx : List Char
  trace : List Event
deriving DecidableEq, Repr

/-- Number of registered commands. -/
def Qlink.commandCount (q : Qlink) : Nat := q.commands.length

/-- The constructor `Qlink::Qlink(stream)`: no command; the global `status` starts false. -/
def new (rx : List Char) : Qlink :=
  { commands := [], status := false, rx := rx, trace := [] }

/-! ## The C library and the Arduino stream -/

/-- Width of `int`. -/
def INT_BITS : Nat := 32

def INT_MAX : Int := 2 ^ (INT_BITS - 1) - 1

def INT_MIN : Int := -(2 ^ (INT_BITS - 1))

/-- Width of `long`. -/
def LONG_BITS : Nat := 32

def LONG_MAX : Int := 2 ^ (LONG_BITS - 1) - 1

def LONG_MIN : Int := -(2 ^ (LONG_BITS - 1))

/-- The NUL character. -/
def NUL : Char := Char.ofNat 0

/-- The C string held by a buffer: its bytes before the first NUL. -/
def cstr (bytes : List Char) : List Char := bytes.takeWhile (fun c => c != NUL)

/-- C `isspace` in the "C" locale. -/
def isspace (c : Char) : Bool :=
  c == ' ' || (9 ≤ c.toNat && c.toNat ≤ 13)

/-- C `isdigit`. -/
def isdigit (c : Char) : Bool := 48 ≤ c.toNat && c.toNat ≤ 57

/-- Value of a decimal digit. -/
def digitVal (c : Char) : Nat := c.toNat - 48

/-- Accumulates the leading decimal digits of `s` onto `acc`. -/
def digitsValue (acc : Nat) : List Char → Nat
  | [] => acc
  | c :: s => if isdigit c then digitsValue (10 * acc + digitVal c) s else acc

/-- The number `atoi` reads: white space is skipped, then an optional sign, then the
decimal digits up to the first other character. -/
def atoiValue (s : List Char) : Int :=
  match s.dropWhile isspace with
  | [] => 0
  | c :: t =>
    if c = '-' then -((digitsValue 0 t : Nat) : Int)
    else if c = '+' then ((digitsValue 0 t : Nat) : Int)
    else ((digitsValue 0 (c :: t) : Nat) : Int)

/-- C `atoi`: undefined when the value does not fit in `int`. -/
def atoi (s : List Char) : Except Fault Int :=
  let v := atoiValue s
  if INT_MIN ≤ v ∧ v ≤ INT_MAX then .ok v else .error .intRange

/-- Decimal rendering of an integer, as `%d` prints it. -/
def itoa (v : Int) : List Char :=
  if v < 0 then '-' :: Nat.toDigits 10 v.natAbs else Nat.toDigits 10 v.toNat

/-- The fragment of `vsnprintf` formatting that the engine and the documented example
use: `%s`, `%d` and `%%`; every other character is copied. The result is the full
rendering, before the buffer bound is applied. -/
def format : List Char → List FmtArg → List Char
  | [], _ => []
  | [c], _ => [c]
  | c :: d :: fmt, as =>
    if c = '%' then
      if d = 's' then
        match as with
        | .str s :: rest => s ++ format fmt rest
        | _ => format fmt (as.drop 1)
      else if d = 'd' then
        match as with
        | .int v :: rest => itoa v ++ format fmt rest
        | _ => format fmt (as.drop 1)
      else if d = '%' then '%' :: format fmt as
      else c :: format (d :: fmt) as
    else c :: format (d :: fmt) as

/-- Arduino `Stream::readBytesUntil(terminator, buffer, length)` on the bytes that arrive
before the read times out: bytes are stored until the terminator was read (it is consumed,
not stored), `length` bytes were stored, or no byte is left. Returns the bytes stored and
the bytes that stay in the stream. -/
def readBytesUntil (terminator : Char) : List Char → Nat → List Char × List Char
  | rx, 0 => ([], rx)
  | [], _ + 1 => ([], [])
  | c :: rx, n + 1 =>
    if c = terminator then ([], rx)
    else ((c :: (readBytesUntil terminator rx n).1), (readBytesUntil terminator rx n).2)

/-- One call of C `strtok` with the single delimiter `delim` on the string that is left:
leading delimiters are skipped; if nothing is left there is no token; otherwise the token
runs to the next delimiter, and the scan resumes behind that delimiter. -/
def strtok (delim : Char) (s : List Char) : Option (List Char × List Char) :=
  match s.dropWhile (fun c => c == delim) with
  | [] => none
  | c :: t =>
    some ((c :: t).takeWhile (fun x => x != delim),
          ((c :: t).dropWhile (fun x => x != delim)).drop 1)

/-! ## Qlink.cpp -/

/-- `Qlink::response`: the rendering is cut to the 99 characters that fit in
`buffer[MAX_RESPONSE_LENGTH]` and written as one line. -/
def response (q : Qlink) (fmt : List Char) (as : List FmtArg) : Qlink :=
  { q with trace := q.trace ++ [Event.println ((format fmt as).take (MAX_RESPONSE_LENGTH - 1))] }

/-- `Qlink::reg`. -/
def reg (q : Qlink) (name : List Char) (handler : Nat) (paramCount : Int)
    (paramTypes : List Args) : Except Fault Qlink :=
  if q.commandCount ≥ 20 then
    .ok (response q "Error: Command limit reached".toList [])
  else if paramCount < 0 ∨ (MAX_VALUES : Int) < paramCount
      ∨ (paramTypes.length : Int) < paramCount then
    .error .regParamTypes
  else
    .ok { q with commands := q.commands ++
      [{ name := name, handler := handler, paramCount := paramCount,
         paramTypes := paramTypes.take paramCount.toNat }] }

/-- `Qlink::available`: reads and clears the global `status`. -/
def available (q : Qlink) : Bool × Qlink :=
  if q.status then (true, { q with status := false }) else (false, q)

/-- `Qlink::parseCommand`: the strings written to `command` and to `args`. -/
def parseCommand (input : List Char) : List Char × List Char :=
  if ' ' ∈ input then
    (input.takeWhile (fun c => c != ' '), (input.dropWhile (fun c => c != ' ')).drop 1)
  else
    (input, [])

/-- The exponent part of a number read by `atof`, behind the `e`: an optional sign and
decimal digits; without a digit there is no exponent. -/
def atofExponent (s : List Char) : Int :=
  match s with
  | [] => 0
  | c :: t =>
    if c = '-' then -((digitsValue 0 t : Nat) : Int)
    else if c = '+' then ((digitsValue 0 t : Nat) : Int)
    else ((digitsValue 0 (c :: t) : Nat) : Int)

/-- The unsigned decimal number at the start of `s`: digits, an optional point with
digits, an optional exponent. Without any digit the value is zero. -/
def atofMagnitude (s : List Char) : Dec :=
  let ip := s.takeWhile isdigit
  let r1 := s.dropWhile isdigit
  let hasPoint : Bool := r1.head? == some '.'
  let fp := if hasPoint then (r1.drop 1).takeWhile isdigit else []
  let r2 := if hasPoint then (r1.drop 1).dropWhile isdigit else r1
  if ip = [] ∧ fp = [] then { mant := 0, exp := 0 }
  else
    let e : Int :=
      if r2.head? == some 'e' || r2.head? == some 'E' then atofExponent (r2.drop 1) else 0
    { mant := (digitsValue 0 (ip ++ fp) : Nat), exp := e - (fp.length : Int) }

/-- C `atof` on decimal input: white space is skipped, then an optional sign, then the
decimal number; the result is the exact value of the text read. The C function also reads
`inf`, `nan` and, in some libraries, hexadecimal input, and rounds what it reads to the
binary format: none of this is embedded, and what is stated about `atof` is stated for
`decimalToken`s of few digits, on which it cannot change the integer part. -/
def atof (s : List Char) : Dec :=
  match s.dropWhile isspace with
  | [] => { mant := 0, exp := 0 }
  | c :: t =>
    if c = '-' then { mant := -(atofMagnitude t).mant, exp := (atofMagnitude t).exp }
    else if c = '+' then atofMagnitude t
    else atofMagnitude (c :: t)

/-- Conversion of a floating-point value to an integer type: the fractional part is
dropped. -/
def Dec.trunc (d : Dec) : Int :=
  if 0 ≤ d.exp then d.mant * 10 ^ d.exp.toNat else Int.tdiv d.mant (10 ^ (-d.exp).toNat)

/-- `Qlink::parseParam`: `alloc` tells whether the allocation succeeds; the result is
`none` when the function returns NULL. -/
def parseParam (alloc : Bool) (value : List Char) (type : Args) :
    Except Fault (Option Param) :=
  match type with
  | .INT =>
    if alloc then
      match atoi value with
      | .ok v => .ok (some (Param.int v))
      | .error f => .error f
    else .ok none
  | .FLOAT => if alloc then .ok (some (Param.float (atof value))) else .ok none
  | .LONG =>
    if alloc then
      if LONG_MIN ≤ (atof value).trunc ∧ (atof value).trunc ≤ LONG_MAX then
        .ok (some (Param.long (atof value).trunc))
      else .error .longRange
    else .ok none
  | .STRING => if alloc then .ok (some (Param.str value)) else .ok none

/-- The `strtok` loop of `parseAndValidateArgs`: `room` is `MAX_VALUES - argc`, `s` is what
`strtok` has left to scan; the result is `argv[argc ..]`. -/
def collectArgv : Nat → List Char → List (List Char)
  | 0, _ => []
  | room + 1, s =>
    match strtok ',' s with
    | none => []
    | some (token, rest) => token :: collectArgv room rest

/-- The conversion loop of `parseAndValidateArgs` from index `i` on: `none` when some
`parseParam` returned NULL. -/
def convertArgs (alloc : Nat → Bool) (paramTypes : List Args) :
    Nat → List (List Char) → Except Fault (Option (List Param))
  | _, [] => .ok (some [])
  | i, value :: argv =>
    match paramTypes.get? i with
    | none => .error .paramTypeSlot
    | some type =>
      match parseParam (alloc i) value type with
      | .error f => .error f
      | .ok none => .ok none
      | .ok (some p) =>
        match convertArgs alloc paramTypes (i + 1) argv with
        | .error f => .error f
        | .ok none => .ok none
        | .ok (some ps) => .ok (some (p :: ps))

/-- `Qlink::parseAndValidateArgs`: `some params` when it returns true. -/
def parseAndValidateArgs (alloc : Nat → Bool) (args : List Char) (cmd : Command) :
    Except Fault (Option (List Param)) :=
  if 50 ≤ args.length then .error .argsCopy
  else
    let argv := collectArgv MAX_VALUES args
    if (argv.length : Int) ≠ cmd.paramCount then .ok none
    else convertArgs alloc cmd.paramTypes 0 argv

/-- The scan `for (i = 0; i < commandCount; i++) if (strcmp(command, commands[i].name) == 0)`
from index `i` on: the index and the descriptor at which it stops. -/
def scan (command : List Char) : List Command → Nat → Option (Nat × Command)
  | [], _ => none
  | c :: cs, i => if command = c.name then some (i, c) else scan command cs (i + 1)

/-- The call `commands[i].handler(params)`: the call is recorded, then the handler makes
its `response` calls. -/
def invoke (H : HandlerTable) (q : Qlink) (handler : Nat) (params : List Param) : Qlink :=
  (H handler params).foldl (fun s r => response s r.1 r.2)
    { q with trace := q.trace ++ [Event.call handler params] }

/-- What `loop` does with the line it has read into `input`. -/
def dispatch (H : HandlerTable) (alloc : Nat → Bool) (q : Qlink) (input : List Char) :
    Except Fault Qlink :=
  let command := (parseCommand input).1
  let args := (parseCommand input).2
  if 20 ≤ command.length then .error .commandBuffer
  else if 30 ≤ args.length then .error .argsBuffer
  else
    match scan command q.commands 0 with
    | some (_, cmd) =>
      match parseAndValidateArgs alloc args cmd with
      | .error f => .error f
      | .ok (some params) => .ok { invoke H q cmd.handler params with status := true }
      | .ok none =>
        .ok (response q "Error: Invalid parameters for \x27%s\x27".toList [FmtArg.str command])
    | none => .ok (response q "Error: Unknown command \x27%s\x27".toList [FmtArg.str command])

/-- The line `loop` reads: at most 49 bytes up to the newline, as a C string. -/
def readInput (rx : List Char) : List Char := cstr (readBytesUntil '\n' rx 49).1

/-- `Qlink::loop`: one tick. -/
def loop (H : HandlerTable) (alloc : Nat → Bool) (q : Qlink) : Except Fault Qlink :=
  if 0 < q.rx.length then
    dispatch H alloc { q with rx := (readBytesUntil '\n' q.rx 49).2 } (readInput q.rx)
  else .ok q

/-! ## Notions used in the statements -/

/-- One `reg` call of the start-up code. -/
structure Registration where
  name : List Char
  handler : Nat
  paramCount : Int
  paramTypes : List Args
deriving DecidableEq, Repr

/-- The call respects the bounds of `reg`: `paramTypes` has `paramCount` entries, at most
`MAX_VALUES`. -/
def Registration.WellFormed (r : Registration) : Prop :=
  0 ≤ r.paramCount ∧ r.paramCount ≤ (MAX_VALUES : Int) ∧ r.paramCount ≤ (r.paramTypes.length : Int)

instance (r : Registration) : Decidable r.WellFormed := by
  unfold Registration.WellFormed; infer_instance

/-- The descriptor a successful `reg` call stores. -/
def Registration.descriptor (r : Registration) : Command :=
  { name := r.name, handler := r.handler, paramCount := r.paramCount,
    paramTypes := r.paramTypes.take r.paramCount.toNat }

/-- Successive `reg` calls. -/
def regAll : Qlink → List Registration → Except Fault Qlink
  | q, [] => .ok q
  | q, r :: rs =>
    match reg q r.name r.handler r.paramCount r.paramTypes with
    | .ok q1 => regAll q1 rs
    | .error f => .error f

deriving instance DecidableEq for Except

/-- The raw argument string split at every comma (empty pieces included). -/
def splitAtCommas (s : List Char) : List (List Char) := s.splitOn ','

/-- The non-empty pieces between the commas of the raw argument string, in order. -/
def commaRuns (s : List Char) : List (List Char) :=
  (splitAtCommas s).filter (fun t => !t.isEmpty)

/-- A registration used in the examples: `sum` with two `INT` parameters, handler 0. -/
def sumReg : Registration :=
  { name := "sum".toList, handler := 0, paramCount := 2, paramTypes := [Args.INT, Args.INT] }

/-- Value of a digit string in positional decimal notation. -/
def decimalValue : List Char → Nat
  | [] => 0
  | c :: ds => digitVal c * 10 ^ ds.length + decimalValue ds

/-- The digits that lead a token: white space and one sign are passed over, the digits
run up to the first other character. -/
def leadDigits (tok : List Char) : List Char :=
  let t := tok.dropWhile isspace
  if t.head? = some '-' ∨ t.head? = some '+' then (t.drop 1).takeWhile isdigit
  else t.takeWhile isdigit

/-- The value of the leading numeric part of a token; zero when there is no digit. -/
def numericLead (tok : List Char) : Int :=
  if (tok.dropWhile isspace).head? = some '-' then -((decimalValue (leadDigits tok) : Nat) : Int)
  else ((decimalValue (leadDigits tok) : Nat) : Int)

/-- The digits of an integer literal: the text behind its optional sign. -/
def literalDigits (tok : List Char) : List Char :=
  if tok.head? = some '-' ∨ tok.head? = some '+' then tok.drop 1 else tok

/-- The value the sign and digits of an integer literal denote. -/
def literalValue (tok : List Char) : Int :=
  if tok.head? = some '-' then -((decimalValue (literalDigits tok) : Nat) : Int)
  else ((decimalValue (literalDigits tok) : Nat) : Int)

/-- The value of an integer literal: an optional sign and one or more decimal digits,
nothing else, denoting a value in the range of `int`; `none` for any other text. -/
def intLiteral (tok : List Char) : Option Int :=
  if literalDigits tok ≠ [] ∧ (literalDigits tok).all isdigit = true
      ∧ INT_MIN ≤ literalValue tok ∧ literalValue tok ≤ INT_MAX then
    some (literalValue tok)
  else none

/-- The state after the read step of a tick: the bytes of the line are consumed. -/
def Qlink.afterRead (q : Qlink) : Qlink :=
  { q with rx := (readBytesUntil '\n' q.rx 49).2 }

/-- The lines a handler writes when called, as they reach the stream. -/
def handlerLines (H : HandlerTable) (handler : Nat) (params : List Param) : List Event :=
  (H handler params).map
    (fun r => Event.println ((format r.1 r.2).take (MAX_RESPONSE_LENGTH - 1)))

/-- A handler table in which no handler writes anything. -/
def silent : HandlerTable := fun _ _ => []

/-- A state with the given registry and pending bytes, nothing written, flag clear. -/
def start (commands : List Command) (rx : List Char) : Qlink :=
  { commands := commands, status := false, rx := rx, trace := [] }

/-- Allocation always succeeds. -/
def allocOk : Nat → Bool := fun _ => true

/-- The handler of the usage example in Qlink.h: `sum(a, b)` answers
`Sum: %d + %d = %d` with `a`, `b` and `a + b`. -/
def sumHandler : List Param → List (List Char × List FmtArg)
  | [Param.int a, Param.int b] =>
    [("Sum: %d + %d = %d".toList, [FmtArg.int a, FmtArg.int b, FmtArg.int (a + b)])]
  | _ => []

/-- A handler table with `sumHandler` at address 0 and silent handlers elsewhere. -/
def sumTable : HandlerTable := fun handler params =>
  if handler = 0 then sumHandler params else []

/-- One step of the integrator's main loop: a tick of `loop`, with the outcome of the
allocations it makes, or a query of `available`. -/
inductive Op where
  | tick (alloc : Nat → Bool)
  | query

/-- What a step shows: the number of handler calls the tick made, the answer of
`available`, or the fault at which the run ends. -/
inductive Obs where
  | ticked (calls : Nat)
  | answer (b : Bool)
  | fault (f : Fault)
deriving DecidableEq, Repr

/-- Whether an event is a handler call. -/
def Event.isCall : Event → Bool
  | Event.call _ _ => true
  | Event.println _ => false

/-- Number of handler calls in a trace. -/
def handlerCalls (trace : List Event) : Nat := trace.countP Event.isCall

/-- A run of ticks and queries; it ends at the first tick whose behaviour is undefined. -/
def run (H : HandlerTable) : Qlink → List Op → List Obs
  | _, [] => []
  | q, Op.tick alloc :: ops =>
    match loop H alloc q with
    | .ok q1 => Obs.ticked (handlerCalls q1.trace - handlerCalls q.trace) :: run H q1 ops
    | .error f => [Obs.fault f]
  | q, Op.query :: ops => Obs.answer (available q).1 :: run H (available q).2 ops

/-- The one-shot flag as the spec words it: `pending` tells whether a tick has called a
handler since the last query; every answer equals `pending`, after which nothing is
pending until the next tick that calls a handler. -/
def oneShot : Bool → List Obs → Bool
  | _, [] => true
  | pending, Obs.ticked calls :: obs => oneShot (pending || decide (0 < calls)) obs
  | pending, Obs.answer b :: obs => (b == pending) && oneShot false obs
  | _, Obs.fault _ :: _ => true

/-- One call of the public interface on a constructed object. -/
inductive Call where
  | reg (r : Registration)
  | loop (alloc : Nat → Bool)
  | available
  | response (fmt : List Char) (as : List FmtArg)

/-- The state after one call of the public interface. -/
def call (H : HandlerTable) (q : Qlink) : Call → Except Fault Qlink
  | Call.reg r => reg q r.name r.handler r.paramCount r.paramTypes
  | Call.loop alloc => loop H alloc q
  | Call.available => .ok (available q).2
  | Call.response fmt as => .ok (response q fmt as)

/-- The state after a sequence of calls of the public interface. -/
def calls (H : HandlerTable) : Qlink → List Call → Except Fault Qlink
  | q, [] => .ok q
  | q, c :: cs =>
    match call H q c with
    | .ok q1 => calls H q1 cs
    | .error f => .error f

/-- A descriptor used in the examples: `say` with one `STRING` parameter, handler 3. -/
def sayCommand : Command :=
  { name := "say".toList, handler := 3, paramCount := 1, paramTypes := [Args.STRING] }

/-- A line of 49 characters that fits the buffers of `loop`: a name of 19 characters, a
space and 29 characters of arguments. -/
def line49 : List Char := "abcdefghijklmnopqrs 12345678901234567890123456789".toList

/-- The state the example sequence of interface calls ends in. -/
def afterCalls : Qlink :=
  { commands := [sumReg.descriptor], status := false, rx := [],
    trace := [Event.call 0 [Param.int 5, Param.int 3],
              Event.println "Sum: 5 + 3 = 8".toList,
              Event.println "Error: Invalid parameters for \x27sum\x27".toList,
              Event.println "Error: Unknown command \x27zzz\x27".toList,
              Event.println "ready".toList] }

/-- The integer part of the number `mant * 10 ^ exp`, as the spec words the conversion:
the fractional part is dropped, that is, the sign of the number is kept and its absolute
value is rounded down to a whole number. -/
def Dec.wholePart (d : Dec) : Int :=
  Int.sign d.mant *
    (((if 0 ≤ d.exp then d.mant.natAbs * 10 ^ d.exp.toNat
       else d.mant.natAbs / 10 ^ (-d.exp).toNat) : Nat) : Int)

/-- Outcome (1) of a tick: one handler call with the flag set; the trace gains the call
and what the handler itself writes. -/
def Dispatched (H : HandlerTable) (q q1 : Qlink) : Prop :=
  ∃ i cmd params, scan (parseCommand (readInput q.rx)).1 q.commands 0 = some (i, cmd)
    ∧ q1 = { q.afterRead with
        status := true
        trace := q.trace ++ Event.call cmd.handler params :: handlerLines H cmd.handler params }

/-- Outcome (2) of a tick: the one line `Error: Invalid parameters` with the command name,
nothing else changed but the bytes consumed. -/
def Rejected (q q1 : Qlink) : Prop :=
  q1 = { q.afterRead with trace := q.trace ++ [Event.println
    ("Error: Invalid parameters for \x27".toList ++ (parseCommand (readInput q.rx)).1
      ++ "\x27".toList)] }

/-- Outcome (3) of a tick: the one line `Error: Unknown command` with the command name,
nothing else changed but the bytes consumed. -/
def Unknown (q q1 : Qlink) : Prop :=
  q1 = { q.afterRead with trace := q.trace ++ [Event.println
    ("Error: Unknown command \x27".toList ++ (parseCommand (readInput q.rx)).1
      ++ "\x27".toList)] }

/-- A descriptor used in the examples: `put` with an `INT` and a `STRING` parameter. -/
def putCommand : Command :=
  { name := "put".toList, handler := 6, paramCount := 2,
    paramTypes := [Args.INT, Args.STRING] }

/-- The `printf` rendering of a template, for the templates this development covers:
text is copied, `%%` gives a percent sign, `%s` the next argument, a string, and `%d` the
next argument, an `int`, in decimal (as `toString` writes an integer). Any other directive,
a directive without a fitting argument and a lone `%` at the end are not covered: the
result is `none`. -/
def rendering : List Char → List FmtArg → Option (List Char)
  | [], _ => some []
  | [c], _ => if c = '%' then none else some [c]
  | c :: d :: fmt, as =>
    if c = '%' then
      if d = 's' then
        match as with
        | FmtArg.str s :: rest => (rendering fmt rest).map (fun out => s ++ out)
        | _ => none
      else if d = 'd' then
        match as with
        | FmtArg.int v :: rest =>
          if INT_MIN ≤ v ∧ v ≤ INT_MAX then
            (rendering fmt rest).map (fun out => (toString v).toList ++ out)
          else none
        | _ => none
      else if d = '%' then (rendering fmt as).map (fun out => '%' :: out)
      else none
    else (rendering (d :: fmt) as).map (fun out => c :: out)

/-- The token is in the decimal notation of `atof`: behind its white space and optional
sign it begins neither with a letter of `inf` or `nan` (in either case) nor with `0x` or
`0X`, the inputs on which the C function reads an infinity, a NaN or (in some libraries)
a hexadecimal number. -/
def decimalToken (tok : List Char) : Bool :=
  let t := tok.dropWhile isspace
  let u := if t.head? = some '-' ∨ t.head? = some '+' then t.drop 1 else t
  !(u.head? == some 'i' || u.head? == some 'I' || u.head? == some 'n' || u.head? == some 'N')
    && !(u.head? == some '0'
          && ((u.drop 1).head? == some 'x' || (u.drop 1).head? == some 'X'))

/-- The number `mant * 10 ^ exp`. -/
def Dec.value (d : Dec) : ℚ :=
  if 0 ≤ d.exp then (d.mant : ℚ) * 10 ^ d.exp.toNat else (d.mant : ℚ) / 10 ^ (-d.exp).toNat

/-- Conversion of a floating-point number to an integer type in C: toward zero. -/
def cTrunc (r : ℚ) : Int := if 0 ≤ r then ⌊r⌋ else ⌈r⌉

/-- The numbers `r` to which a binary floating-point format of at least 24 bits of
precision may round the decimal `d` when `atof` reads it: `r` is within a relative error
of 2^-21 of `d` (or both are below one half in magnitude, which covers underflow), and `r`
is `d` itself when `d` is a whole number below 2^24 in magnitude, which the format
holds. -/
def Rounded (d : Dec) (r : ℚ) : Prop :=
  (|r - d.value| * 2 ^ 21 ≤ |d.value| ∨ (|d.value| < 1 / 2 ∧ |r| < 1 / 2))
  ∧ ∀ n : Int, d.value = n → n.natAbs < 2 ^ 24 → r = n

/-- The tokens on which the exact embedding of `atof` decides the `LONG` conversion: decimal
notation, digits that read as one whole number are below 10^6 (at most six significant
digits), and a magnitude below 2^24. -/
def SmallDecimal (tok : List Char) : Prop :=
  decimalToken tok = true ∧ (atof tok).mant.natAbs < 10 ^ 6
    ∧ (atof tok).wholePart.natAbs < 2 ^ 24

instance (tok : List Char) : Decidable (SmallDecimal tok) := by
  unfold SmallDecimal; infer_instance

/-- A state whose registry is full. -/
def fullQlink : Qlink :=
  { commands := List.replicate 20 sumReg.descriptor, status := false, rx := [], trace := [] }

end QlinkLib

/-! # Properties -/

namespace QlinkLib

/-! ## Registration -/

theorem reg_of_room (q : Qlink) (r : Registration) (hroom : q.commands.length < 20)
    (hwf : r.WellFormed) :
    reg q r.name r.handler r.paramCount r.paramTypes
      = .ok { q with commands := q.commands ++ [r.descriptor] } := by
  obtain ⟨h0, h3, hlen⟩ := hwf
  have hc : ¬ (q.commandCount ≥ 20) := by
    simp only [Qlink.commandCount]; omega
  have hb : ¬ (r.paramCount < 0 ∨ (MAX_VALUES : Int) < r.paramCount
      ∨ (r.paramTypes.length : Int) < r.paramCount) := by
    omega
  simp only [reg, hc, hb, if_false, Registration.descriptor]

theorem reg_of_full (q : Qlink) (name : List Char) (handler : Nat) (paramCount : Int)
    (paramTypes : List Args) (hfull : 20 ≤ q.commands.length) :
    reg q name handler paramCount paramTypes
      = .ok { q with trace := q.trace ++ [Event.println "Error: Command limit reached".toList] } := by
  have hc : q.commandCount ≥ 20 := hfull
  simp only [reg, hc, if_true, response]
  rfl

theorem regAll_of_room (rs : List Registration) :
    ∀ q : Qlink, q.commands.length + rs.length ≤ 20 → (∀ r ∈ rs, r.WellFormed) →
      regAll q rs = .ok { q with commands := q.commands ++ rs.map Registration.descriptor } := by
  induction rs with
  | nil => intro q _ _; simp [regAll]
  | cons r rs ih =>
    intro q hlen hwf
    have hr : r.WellFormed := hwf r (List.mem_cons_self _ _)
    have hroom : q.commands.length < 20 := by simp only [List.length_cons] at hlen; omega
    simp only [regAll, reg_of_room q r hroom hr]
    rw [ih]
    · simp
    · simp only [List.length_append, List.length_cons, List.length_nil] at hlen ⊢; omega
    · intro x hx; exact hwf x (List.mem_cons_of_mem _ hx)

/-- C1: starting from the empty registry, up to 20 successive well-formed `reg` calls all
succeed, each appending its descriptor and writing nothing; and on every state that holds
20 descriptors a further `reg` call changes nothing but the output, to which it adds
exactly the line `Error: Command limit reached`. -/
theorem reg_capacity (rx : List Char) (rs : List Registration) (q : Qlink)
    (name : List Char) (handler : Nat) (paramCount : Int) (paramTypes : List Args)
    (hlen : rs.length ≤ 20) (hwf : ∀ r ∈ rs, r.WellFormed) (hfull : q.commandCount = 20) :
    regAll (new rx) rs = .ok { new rx with commands := rs.map Registration.descriptor }
    ∧ reg q name handler paramCount paramTypes
        = .ok { q with
            trace := q.trace ++ [Event.println "Error: Command limit reached".toList] } := by
  constructor
  · have h := regAll_of_room rs (new rx) (by simpa [new] using hlen) hwf
    simpa [new] using h
  · exact reg_of_full q name handler paramCount paramTypes (by
      simp only [Qlink.commandCount] at hfull; omega)

theorem reg_capacity_witness :
    (List.replicate 20 sumReg).length ≤ 20
    ∧ (∀ r ∈ List.replicate 20 sumReg, r.WellFormed)
    ∧ fullQlink.commandCount = 20
    ∧ regAll (new []) (List.replicate 20 sumReg)
        = .ok { new [] with commands := (List.replicate 20 sumReg).map Registration.descriptor }
    ∧ reg fullQlink "max".toList 7 1 [Args.LONG]
        = .ok { fullQlink with
            trace := fullQlink.trace ++ [Event.println "Error: Command limit reached".toList] } :=
  ⟨by decide, by decide, by decide,
    reg_capacity [] (List.replicate 20 sumReg) fullQlink "max".toList 7 1 [Args.LONG]
      (by decide) (by decide) (by decide)⟩

/-! ## Tokens of the raw argument string -/

theorem splitOn_eq_takeWhile_cons (d : Char) (s : List Char) :
    s.splitOn d = s.takeWhile (fun x => x != d) ::
      (match s.dropWhile (fun x => x != d) with
       | [] => []
       | _ :: r => r.splitOn d) := by
  induction s with
  | nil => simp [List.splitOn, List.splitOnP_nil]
  | cons c t ih =>
    by_cases hc : c = d
    · subst hc
      simp [List.splitOn, List.splitOnP_cons]
    · have hne : (c != d) = true := by simpa using hc
      have heq : (c == d) = false := by simpa using hc
      simp only [List.splitOn] at ih ⊢
      rw [List.splitOnP_cons, ih]
      simp [heq, hne]

theorem strtok_none (d : Char) (s : List Char) (h : strtok d s = none) :
    (s.splitOn d).filter (fun t => !t.isEmpty) = [] := by
  induction s with
  | nil => simp [List.splitOn, List.splitOnP_nil]
  | cons c t ih =>
    by_cases hc : c = d
    · subst hc
      have h1 : strtok c t = none := by simpa [strtok] using h
      have := ih h1
      simp only [List.splitOn] at this ⊢
      rw [List.splitOnP_cons]
      simpa using this
    · have heq : (c == d) = false := by simpa using hc
      simp [strtok, List.dropWhile, heq] at h

theorem strtok_some (d : Char) (s tok rest : List Char) (h : strtok d s = some (tok, rest)) :
    (s.splitOn d).filter (fun t => !t.isEmpty)
      = tok :: (rest.splitOn d).filter (fun t => !t.isEmpty) := by
  induction s with
  | nil => simp [strtok] at h
  | cons c t ih =>
    by_cases hc : c = d
    · subst hc
      have h1 : strtok c t = some (tok, rest) := by simpa [strtok] using h
      have := ih h1
      simp only [List.splitOn] at this ⊢
      rw [List.splitOnP_cons]
      simpa using this
    · have heq : (c == d) = false := by simpa using hc
      have hne : (c != d) = true := by simpa using hc
      have hdrop : (c :: t).dropWhile (fun x => x == d) = c :: t := by
        simp [List.dropWhile, heq]
      unfold strtok at h
      rw [hdrop] at h
      simp only [Option.some.injEq, Prod.mk.injEq] at h
      obtain ⟨h1, h2⟩ := h
      rw [splitOn_eq_takeWhile_cons]
      have hhead : ((c :: t).takeWhile (fun x => x != d)).isEmpty = false := by
        simp [List.takeWhile, hne]
      rw [List.filter_cons, hhead]
      simp only [Bool.not_false, if_true, h1]
      congr 1
      rw [← h2]
      cases (c :: t).dropWhile (fun x => x != d) with
      | nil => simp [List.splitOn, List.splitOnP_nil]
      | cons x r => simp

theorem collectArgv_eq (n : Nat) :
    ∀ s : List Char, collectArgv n s = (commaRuns s).take n := by
  induction n with
  | zero => intro s; simp [collectArgv]
  | succ n ih =>
    intro s
    cases h : strtok ',' s with
    | none =>
      have := strtok_none ',' s h
      simp [collectArgv, h, commaRuns, splitAtCommas, this]
    | some p =>
      obtain ⟨tok, rest⟩ := p
      have := strtok_some ',' s tok rest h
      simp [collectArgv, h, commaRuns, splitAtCommas, this, ih rest]

/-! ## The two error lines -/

theorem format_unknown (command : List Char) :
    format "Error: Unknown command \x27%s\x27".toList [FmtArg.str command]
      = "Error: Unknown command \x27".toList ++ command ++ "\x27".toList := by
  rfl

theorem format_invalid (command : List Char) :
    format "Error: Invalid parameters for \x27%s\x27".toList [FmtArg.str command]
      = "Error: Invalid parameters for \x27".toList ++ command ++ "\x27".toList := by
  rfl

theorem response_unknown (q : Qlink) (command : List Char) (h : command.length < 20) :
    response q "Error: Unknown command \x27%s\x27".toList [FmtArg.str command]
      = { q with trace := q.trace ++
            [Event.println ("Error: Unknown command \x27".toList ++ command ++ "\x27".toList)] } := by
  unfold response
  rw [format_unknown, List.take_of_length_le]
  simp only [List.length_append, MAX_RESPONSE_LENGTH]
  have : "Error: Unknown command \x27".toList.length = 24 := by rfl
  have : "\x27".toList.length = 1 := by rfl
  omega

theorem response_invalid (q : Qlink) (command : List Char) (h : command.length < 20) :
    response q "Error: Invalid parameters for \x27%s\x27".toList [FmtArg.str command]
      = { q with trace := q.trace ++
            [Event.println
              ("Error: Invalid parameters for \x27".toList ++ command ++ "\x27".toList)] } := by
  unfold response
  rw [format_invalid, List.take_of_length_le]
  simp only [List.length_append, MAX_RESPONSE_LENGTH]
  have : "Error: Invalid parameters for \x27".toList.length = 31 := by rfl
  have : "\x27".toList.length = 1 := by rfl
  omega

/-! ## The lookup scan -/

theorem scan_eq_none (command : List Char) (cmds : List Command) :
    ∀ i, scan command cmds i = none ↔ ∀ c ∈ cmds, c.name ≠ command := by
  induction cmds with
  | nil => intro i; simp [scan]
  | cons c cs ih =>
    intro i
    by_cases h : command = c.name
    · simp [scan, h]
    · have h2 : ¬ c.name = command := fun e => h e.symm
      simp [scan, h, h2, ih (i + 1)]

theorem scan_some (command : List Char) (cmds : List Command) :
    ∀ (k i : Nat) (c : Command), scan command cmds k = some (i, c) →
      k ≤ i ∧ cmds.get? (i - k) = some c ∧ c.name = command
      ∧ ∀ j, j < i - k → ∀ d, cmds.get? j = some d → d.name ≠ command := by
  induction cmds with
  | nil => intro k i c h; simp [scan] at h
  | cons a cs ih =>
    intro k i c h
    by_cases ha : command = a.name
    · simp only [scan, ha, if_true, Option.some.injEq, Prod.mk.injEq] at h
      obtain ⟨rfl, rfl⟩ := h
      simp [ha]
    · simp only [scan, ha, if_false] at h
      obtain ⟨h1, h2, h3, h4⟩ := ih (k + 1) i c h
      have hik : i - k = (i - (k + 1)) + 1 := by omega
      refine ⟨by omega, ?_, h3, ?_⟩
      · rw [hik]; simpa using h2
      · intro j hj d hd
        cases j with
        | zero =>
          simp only [List.get?_cons_zero, Option.some.injEq] at hd
          subst hd
          exact fun e => ha e.symm
        | succ j =>
          simp only [List.get?_cons_succ] at hd
          exact h4 j (by omega) d hd

theorem scan_append (command : List Char) (cmds more : List Command) :
    ∀ (k i : Nat) (c : Command), scan command cmds k = some (i, c) →
      scan command (cmds ++ more) k = some (i, c) := by
  induction cmds with
  | nil => intro k i c h; simp [scan] at h
  | cons a cs ih =>
    intro k i c h
    by_cases ha : command = a.name
    · simpa [scan, ha] using h
    · simp only [scan, ha, if_false, List.cons_append] at h ⊢
      exact ih (k + 1) i c h

/-! ## One tick -/

theorem loop_of_input (H : HandlerTable) (alloc : Nat → Bool) (q : Qlink) (hrx : q.rx ≠ []) :
    loop H alloc q = dispatch H alloc q.afterRead (readInput q.rx) := by
  have : 0 < q.rx.length := List.length_pos.mpr hrx
  simp [loop, this, Qlink.afterRead]

theorem foldl_response (rs : List (List Char × List FmtArg)) :
    ∀ q : Qlink, rs.foldl (fun s r => response s r.1 r.2) q
      = { q with trace := q.trace ++ (rs.map
            (fun r => Event.println ((format r.1 r.2).take (MAX_RESPONSE_LENGTH - 1)))) } := by
  induction rs with
  | nil => intro q; simp
  | cons r rs ih =>
    intro q
    rw [List.foldl_cons, ih]
    simp [response]

theorem invoke_eq (H : HandlerTable) (q : Qlink) (handler : Nat) (params : List Param) :
    invoke H q handler params
      = { q with trace := q.trace ++ Event.call handler params :: handlerLines H handler params } := by
  simp [invoke, foldl_response, handlerLines]

theorem dispatch_unknown (H : HandlerTable) (alloc : Nat → Bool) (q : Qlink) (input : List Char)
    (hname : (parseCommand input).1.length < 20) (hargs : (parseCommand input).2.length < 30)
    (hscan : scan (parseCommand input).1 q.commands 0 = none) :
    dispatch H alloc q input
      = .ok { q with trace := q.trace ++ [Event.println
          ("Error: Unknown command \x27".toList ++ (parseCommand input).1 ++ "\x27".toList)] } := by
  have h1 : ¬ 20 ≤ (parseCommand input).1.length := by omega
  have h2 : ¬ 30 ≤ (parseCommand input).2.length := by omega
  simp only [dispatch, h1, h2, if_false, hscan, response_unknown _ _ hname]

theorem dispatch_invalid (H : HandlerTable) (alloc : Nat → Bool) (q : Qlink) (input : List Char)
    (i : Nat) (cmd : Command)
    (hname : (parseCommand input).1.length < 20) (hargs : (parseCommand input).2.length < 30)
    (hscan : scan (parseCommand input).1 q.commands 0 = some (i, cmd))
    (hparse : parseAndValidateArgs alloc (parseCommand input).2 cmd = .ok none) :
    dispatch H alloc q input
      = .ok { q with trace := q.trace ++ [Event.println
          ("Error: Invalid parameters for \x27".toList ++ (parseCommand input).1
            ++ "\x27".toList)] } := by
  have h1 : ¬ 20 ≤ (parseCommand input).1.length := by omega
  have h2 : ¬ 30 ≤ (parseCommand input).2.length := by omega
  simp only [dispatch, h1, h2, if_false, hscan, hparse, response_invalid _ _ hname]

theorem dispatch_success (H : HandlerTable) (alloc : Nat → Bool) (q : Qlink) (input : List Char)
    (i : Nat) (cmd : Command) (params : List Param)
    (hname : (parseCommand input).1.length < 20) (hargs : (parseCommand input).2.length < 30)
    (hscan : scan (parseCommand input).1 q.commands 0 = some (i, cmd))
    (hparse : parseAndValidateArgs alloc (parseCommand input).2 cmd = .ok (some params)) :
    dispatch H alloc q input
      = .ok { q with
          status := true
          trace := q.trace ++ Event.call cmd.handler params
            :: handlerLines H cmd.handler params } := by
  have h1 : ¬ 20 ≤ (parseCommand input).1.length := by omega
  have h2 : ¬ 30 ≤ (parseCommand input).2.length := by omega
  simp only [dispatch, h1, h2, if_false, hscan, hparse, invoke_eq]

theorem parseAndValidateArgs_count (alloc : Nat → Bool) (args : List Char) (cmd : Command)
    (hargs : args.length < 50)
    (hcount : ((min (commaRuns args).length MAX_VALUES : Nat) : Int) ≠ cmd.paramCount) :
    parseAndValidateArgs alloc args cmd = .ok none := by
  have h1 : ¬ 50 ≤ args.length := by omega
  have h2 : (collectArgv MAX_VALUES args).length = min (commaRuns args).length MAX_VALUES := by
    rw [collectArgv_eq, List.length_take]; exact Nat.min_comm _ _
  unfold parseAndValidateArgs
  rw [if_neg h1]
  simp only [h2]
  rw [if_pos hcount]

/-! ## Unknown commands -/

/-- For a line whose command name and arguments fit `command[20]` and `args[30]` and whose
name no descriptor has, the tick writes the one line `Error: Unknown command` with the
name, calls no handler and changes neither registry nor flag. -/
theorem unknown_command_of_fit (H : HandlerTable) (alloc : Nat → Bool) (q : Qlink)
    (hrx : q.rx ≠ [])
    (hname : (parseCommand (readInput q.rx)).1.length < 20)
    (hargs : (parseCommand (readInput q.rx)).2.length < 30)
    (hunknown : ∀ c ∈ q.commands, c.name ≠ (parseCommand (readInput q.rx)).1) :
    loop H alloc q
      = .ok { q.afterRead with trace := q.trace ++ [Event.println
          ("Error: Unknown command \x27".toList ++ (parseCommand (readInput q.rx)).1
            ++ "\x27".toList)] } := by
  rw [loop_of_input H alloc q hrx]
  exact dispatch_unknown H alloc q.afterRead _ hname hargs
    ((scan_eq_none _ _ 0).mpr hunknown)

/-- C5: on the line of the 20 letters `abcdefghijklmnopqrst`, a name that no descriptor has,
the tick copies 21 bytes into `command[20]`: the behaviour is undefined, no
`Error: Unknown command` line is guaranteed. -/
theorem unknown_command_overflow :
    loop silent allocOk (start [] "abcdefghijklmnopqrst\n".toList) = .error Fault.commandBuffer := by
  decide

/-! ## Argument count -/

/-- C3 as stated fails: `set` is registered with two `INT` parameters and the line is
`set 1,,2`, whose arguments split at every comma into three pieces; the tick calls the
handler with `1` and `2` and writes no error line. Likewise `set 1,2,3`, sent to a
`set` with three parameters after a fourth piece `4` was added, is accepted. -/
theorem count_mismatch_counterexample :
    (splitAtCommas "1,,2".toList).length = 3
    ∧ loop silent allocOk
        (start [{ name := "set".toList, handler := 5, paramCount := 2,
                  paramTypes := [Args.INT, Args.INT] }] "set 1,,2\n".toList)
      = .ok { commands := [{ name := "set".toList, handler := 5, paramCount := 2,
                             paramTypes := [Args.INT, Args.INT] }],
              status := true, rx := [],
              trace := [Event.call 5 [Param.int 1, Param.int 2]] }
    ∧ (splitAtCommas "1,2,3,4".toList).length = 4
    ∧ loop silent allocOk
        (start [{ name := "set".toList, handler := 5, paramCount := 3,
                  paramTypes := [Args.INT, Args.INT, Args.INT] }] "set 1,2,3,4\n".toList)
      = .ok { commands := [{ name := "set".toList, handler := 5, paramCount := 3,
                             paramTypes := [Args.INT, Args.INT, Args.INT] }],
              status := true, rx := [],
              trace := [Event.call 5 [Param.int 1, Param.int 2, Param.int 3]] } := by
  decide

/-- C3, amended: for a line that fits the buffers and whose name the scan resolves to the
descriptor `cmd`, if the number of non-empty pieces between the commas of the raw
arguments, capped at `MAX_VALUES`, differs from `cmd.paramCount`, the tick writes exactly
the line `Error: Invalid parameters` with the name and calls no handler. -/
theorem invalid_parameter_count (H : HandlerTable) (alloc : Nat → Bool) (q : Qlink)
    (i : Nat) (cmd : Command)
    (hrx : q.rx ≠ [])
    (hname : (parseCommand (readInput q.rx)).1.length < 20)
    (hargs : (parseCommand (readInput q.rx)).2.length < 30)
    (hscan : scan (parseCommand (readInput q.rx)).1 q.commands 0 = some (i, cmd))
    (hcount : ((min (commaRuns (parseCommand (readInput q.rx)).2).length MAX_VALUES : Nat) : Int)
      ≠ cmd.paramCount) :
    loop H alloc q
      = .ok { q.afterRead with trace := q.trace ++ [Event.println
          ("Error: Invalid parameters for \x27".toList ++ (parseCommand (readInput q.rx)).1
            ++ "\x27".toList)] } := by
  rw [loop_of_input H alloc q hrx]
  exact dispatch_invalid H alloc q.afterRead _ i cmd hname hargs hscan
    (parseAndValidateArgs_count alloc _ cmd (by omega) hcount)

theorem invalid_parameter_count_witness :
    loop silent allocOk (start [sumReg.descriptor] "sum 1,2,3\n".toList)
      = .ok { (start [sumReg.descriptor] "sum 1,2,3\n".toList).afterRead with
          trace := [] ++ [Event.println
            ("Error: Invalid parameters for \x27".toList ++ "sum".toList ++ "\x27".toList)] } :=
  invalid_parameter_count silent allocOk (start [sumReg.descriptor] "sum 1,2,3\n".toList)
    0 sumReg.descriptor (by decide) (by decide) (by decide) (by decide) (by decide)

/-! ## Integer conversion -/

theorem digitsValue_eq (s : List Char) :
    ∀ acc : Nat, digitsValue acc s
      = acc * 10 ^ (s.takeWhile isdigit).length + decimalValue (s.takeWhile isdigit) := by
  induction s with
  | nil => intro acc; simp [digitsValue, decimalValue]
  | cons c t ih =>
    intro acc
    by_cases hc : isdigit c = true
    · simp only [digitsValue, hc, if_true, List.takeWhile_cons_of_pos, List.length_cons,
        decimalValue, ih]
      ring
    · simp [digitsValue, hc, decimalValue]

theorem isspace_of_isdigit (c : Char) (h : isdigit c = true) : isspace c = false := by
  simp only [isdigit, Bool.and_eq_true, decide_eq_true_eq] at h
  have hne : c ≠ ' ' := by
    intro e; subst e; revert h; decide
  simp only [isspace, Bool.or_eq_false_iff, Bool.and_eq_false_iff, beq_eq_false_iff_ne, ne_eq,
    decide_eq_false_iff_not]
  exact ⟨hne, by omega⟩

theorem not_sign_of_isdigit (c : Char) (h : isdigit c = true) : c ≠ '-' ∧ c ≠ '+' := by
  simp only [isdigit, Bool.and_eq_true, decide_eq_true_eq] at h
  constructor <;> (intro e; subst e; revert h; decide)

theorem atoiValue_eq (tok : List Char) : atoiValue tok = numericLead tok := by
  unfold atoiValue numericLead leadDigits
  cases h : tok.dropWhile isspace with
  | nil => simp [decimalValue]
  | cons c t =>
    by_cases h1 : c = '-'
    · subst h1
      simp [digitsValue_eq]
    · by_cases h2 : c = '+'
      · subst h2
        simp [digitsValue_eq]
      · simp [h1, h2, digitsValue_eq]

theorem atoi_of_range (tok : List Char)
    (h : INT_MIN ≤ numericLead tok ∧ numericLead tok ≤ INT_MAX) :
    atoi tok = .ok (numericLead tok) := by
  simp only [atoi, atoiValue_eq, h, and_self, if_true]

theorem comma_ne_of_isdigit (c : Char) (h : isdigit c = true) : c ≠ ',' := by
  simp only [isdigit, Bool.and_eq_true, decide_eq_true_eq] at h
  intro e; subst e; revert h; decide

theorem intLiteral_some (tok : List Char) (v : Int) (h : intLiteral tok = some v) :
    literalDigits tok ≠ [] ∧ (∀ x ∈ literalDigits tok, isdigit x = true)
    ∧ INT_MIN ≤ v ∧ v ≤ INT_MAX ∧ v = literalValue tok := by
  unfold intLiteral at h
  split at h
  · rename_i hh
    obtain ⟨hne, hall, hlo, hhi⟩ := hh
    simp only [Option.some.injEq] at h
    rw [List.all_eq_true] at hall
    subst h
    exact ⟨hne, hall, hlo, hhi, rfl⟩
  · exact absurd h (by simp)

theorem intLiteral_spec (tok : List Char) (v : Int) (h : intLiteral tok = some v) :
    numericLead tok = v ∧ INT_MIN ≤ v ∧ v ≤ INT_MAX ∧ tok ≠ [] ∧ ',' ∉ tok := by
  obtain ⟨hne, hall, hlo, hhi, hv⟩ := intLiteral_some tok v h
  cases tok with
  | nil => simp [literalDigits] at hne
  | cons c t =>
    refine ⟨?_, hlo, hhi, by simp, ?_⟩
    · by_cases h1 : c = '-'
      · subst h1
        simp only [literalValue, literalDigits, List.head?_cons, true_or, if_true, List.drop_one,
          List.tail_cons] at hall hv
        have htw : t.takeWhile isdigit = t := List.takeWhile_eq_self_iff.mpr hall
        have hsp : isspace '-' = false := by decide
        rw [hv]
        simp [numericLead, leadDigits, List.dropWhile, hsp, htw]
      · by_cases h2 : c = '+'
        · subst h2
          simp only [literalValue, literalDigits, List.head?_cons, or_true, if_true,
            List.drop_one, List.tail_cons, Option.some.injEq, h1, if_false] at hall hv
          have htw : t.takeWhile isdigit = t := List.takeWhile_eq_self_iff.mpr hall
          have hsp : isspace '+' = false := by decide
          rw [hv]
          simp [numericLead, leadDigits, List.dropWhile, hsp, htw, h1]
        · simp only [literalValue, literalDigits, List.head?_cons, Option.some.injEq, h1, h2,
            or_self, if_false] at hall hv
          have htw : (c :: t).takeWhile isdigit = c :: t := List.takeWhile_eq_self_iff.mpr hall
          have hc : isdigit c = true := hall c (List.mem_cons_self _ _)
          have hsp : isspace c = false := isspace_of_isdigit c hc
          have hdw : (c :: t).dropWhile isspace = c :: t := by simp [List.dropWhile, hsp]
          rw [hv]
          simp only [numericLead, leadDigits, hdw, List.head?_cons, Option.some.injEq, h1, h2,
            or_self, if_false, htw]
    · intro hmem
      by_cases hs : c = '-' ∨ c = '+'
      · have hd : literalDigits (c :: t) = t := by
          simp [literalDigits, hs]
        rw [hd] at hall
        rcases List.mem_cons.mp hmem with e | e
        · rcases hs with e2 | e2 <;> (rw [e2] at e; revert e; decide)
        · exact comma_ne_of_isdigit _ (hall _ e) rfl
      · have hd : literalDigits (c :: t) = c :: t := by
          simp [literalDigits, hs]
        rw [hd] at hall
        exact comma_ne_of_isdigit _ (hall _ hmem) rfl

theorem parseParam_int (tok : List Char)
    (h : INT_MIN ≤ numericLead tok ∧ numericLead tok ≤ INT_MAX) :
    parseParam true tok Args.INT = .ok (some (Param.int (numericLead tok))) := by
  simp only [parseParam, if_true, atoi_of_range tok h]

theorem convertArgs_int (alloc : Nat → Bool) (types : List Args) :
    ∀ (toks : List (List Char)) (i : Nat),
      (∀ k, k < toks.length → types.get? (i + k) = some Args.INT) →
      (∀ k, k < toks.length → alloc (i + k) = true) →
      (∀ t ∈ toks, INT_MIN ≤ numericLead t ∧ numericLead t ≤ INT_MAX) →
      convertArgs alloc types i toks
        = .ok (some (toks.map (fun t => Param.int (numericLead t)))) := by
  intro toks
  induction toks with
  | nil => intro i _ _ _; simp [convertArgs]
  | cons t ts ih =>
    intro i hty hal hr
    have h0 : types.get? i = some Args.INT := by simpa using hty 0 (by simp)
    have a0 : alloc i = true := by simpa using hal 0 (by simp)
    have hrest := ih (i + 1)
      (fun k hk => by
        have := hty (k + 1) (by simpa using hk)
        rwa [show i + (k + 1) = i + 1 + k by omega] at this)
      (fun k hk => by
        have := hal (k + 1) (by simpa using hk)
        rwa [show i + (k + 1) = i + 1 + k by omega] at this)
      (fun x hx => hr x (List.mem_cons_of_mem _ hx))
    simp only [convertArgs, h0, a0, parseParam_int t (hr t (List.mem_cons_self _ _)), hrest,
      List.map_cons]

/-! ## The tokenizer of the line -/

theorem takeWhile_ne_append (d : Char) (args : List Char) :
    ∀ name : List Char, d ∉ name → (name ++ d :: args).takeWhile (fun c => c != d) = name := by
  intro name
  induction name with
  | nil => intro _; simp
  | cons c t ih =>
    intro h
    have hc : (c != d) = true := by
      simp only [bne_iff_ne, ne_eq]
      exact fun e => h (by simp [e])
    have ht : d ∉ t := fun e => h (List.mem_cons_of_mem _ e)
    simp only [List.cons_append, List.takeWhile_cons, hc, if_true, ih ht]

theorem dropWhile_ne_append (d : Char) (args : List Char) :
    ∀ name : List Char, d ∉ name → (name ++ d :: args).dropWhile (fun c => c != d) = d :: args := by
  intro name
  induction name with
  | nil => intro _; simp
  | cons c t ih =>
    intro h
    have hc : (c != d) = true := by
      simp only [bne_iff_ne, ne_eq]
      exact fun e => h (by simp [e])
    have ht : d ∉ t := fun e => h (List.mem_cons_of_mem _ e)
    simp only [List.cons_append, List.dropWhile_cons, hc, if_true, ih ht]

theorem parseCommand_of_space (name args : List Char) (h : ' ' ∉ name) :
    parseCommand (name ++ ' ' :: args) = (name, args) := by
  have hmem : ' ' ∈ name ++ ' ' :: args := by simp
  simp only [parseCommand, hmem, if_true, takeWhile_ne_append ' ' args name h,
    dropWhile_ne_append ' ' args name h, List.drop_one, List.tail_cons]

theorem parseCommand_of_no_space (input : List Char) (h : ' ' ∉ input) :
    parseCommand input = (input, []) := by
  simp only [parseCommand, h, if_false]

theorem commaRuns_intercalate (toks : List (List Char))
    (h : ∀ t ∈ toks, t ≠ [] ∧ ',' ∉ t) :
    commaRuns (List.intercalate [','] toks) = toks := by
  cases toks with
  | nil => simp [commaRuns, splitAtCommas, List.intercalate, List.splitOn, List.splitOnP_nil]
  | cons t ts =>
    have hs := List.splitOn_intercalate (t :: ts) ',' (fun l hl => (h l hl).2) (List.cons_ne_nil t ts)
    unfold commaRuns splitAtCommas
    rw [hs, List.filter_eq_self]
    intro a ha
    have := (h a ha).1
    cases a with
    | nil => exact absurd rfl this
    | cons _ _ => rfl

/-! ## Dispatch of integer arguments -/

theorem readInput_nil : readInput [] = [] := by
  rfl

theorem literals_spec :
    ∀ (toks : List (List Char)) (vs : List Int), toks.map intLiteral = vs.map some →
      toks.length = vs.length
      ∧ toks.map (fun t => Param.int (numericLead t)) = vs.map Param.int
      ∧ (∀ t ∈ toks, INT_MIN ≤ numericLead t ∧ numericLead t ≤ INT_MAX)
      ∧ (∀ t ∈ toks, t ≠ [] ∧ ',' ∉ t) := by
  intro toks
  induction toks with
  | nil =>
    intro vs h
    cases vs with
    | nil => simp
    | cons v vs => simp at h
  | cons t ts ih =>
    intro vs h
    cases vs with
    | nil => simp at h
    | cons v vs =>
      simp only [List.map_cons, List.cons.injEq] at h
      obtain ⟨h1, h2, h3, h4⟩ := ih vs h.2
      obtain ⟨e, lo, hi, ne, nc⟩ := intLiteral_spec t v h.1
      refine ⟨by simp [h1], by simp [e, h2], ?_, ?_⟩
      · intro x hx
        rcases List.mem_cons.mp hx with rfl | hx
        · rw [e]; exact ⟨lo, hi⟩
        · exact h3 x hx
      · intro x hx
        rcases List.mem_cons.mp hx with rfl | hx
        · exact ⟨ne, nc⟩
        · exact h4 x hx

theorem parseAndValidateArgs_leads (alloc : Nat → Bool) (cmd : Command)
    (toks : List (List Char))
    (hshape : ∀ t ∈ toks, t ≠ [] ∧ ',' ∉ t)
    (hrange : ∀ t ∈ toks, INT_MIN ≤ numericLead t ∧ numericLead t ≤ INT_MAX)
    (hargs : (List.intercalate [','] toks).length < 30)
    (hcount : cmd.paramCount = (toks.length : Int))
    (htypes : cmd.paramTypes = List.replicate toks.length Args.INT)
    (hmax : toks.length ≤ MAX_VALUES)
    (halloc : ∀ k, k < toks.length → alloc k = true) :
    parseAndValidateArgs alloc (List.intercalate [','] toks) cmd
      = .ok (some (toks.map (fun t => Param.int (numericLead t)))) := by
  have h1 : ¬ 50 ≤ (List.intercalate [','] toks).length := by omega
  have h2 : collectArgv MAX_VALUES (List.intercalate [','] toks) = toks := by
    rw [collectArgv_eq, commaRuns_intercalate toks hshape, List.take_of_length_le (by omega)]
  have h3 : ¬ ((toks.length : Int) ≠ cmd.paramCount) := by
    rw [hcount]; simp
  unfold parseAndValidateArgs
  rw [if_neg h1]
  simp only [h2]
  rw [if_neg h3, htypes]
  apply convertArgs_int
  · intro k hk
    rw [Nat.zero_add, List.get?_eq_getElem?, List.getElem?_replicate]
    simp [hk]
  · intro k hk
    rw [Nat.zero_add]
    exact halloc k hk
  · exact hrange

theorem dispatch_leads (H : HandlerTable) (alloc : Nat → Bool) (q : Qlink)
    (i : Nat) (cmd : Command) (name : List Char) (toks : List (List Char))
    (hline : readInput q.rx = name ++ ' ' :: List.intercalate [','] toks)
    (hshape : ∀ t ∈ toks, t ≠ [] ∧ ',' ∉ t)
    (hrange : ∀ t ∈ toks, INT_MIN ≤ numericLead t ∧ numericLead t ≤ INT_MAX)
    (hspace : ' ' ∉ name) (hname : name.length < 20)
    (hargs : (List.intercalate [','] toks).length < 30)
    (hscan : scan name q.commands 0 = some (i, cmd))
    (hcount : cmd.paramCount = (toks.length : Int))
    (htypes : cmd.paramTypes = List.replicate toks.length Args.INT)
    (hmax : toks.length ≤ MAX_VALUES)
    (halloc : ∀ k, k < toks.length → alloc k = true) :
    loop H alloc q
      = .ok { q.afterRead with
          status := true
          trace := q.trace ++ Event.call cmd.handler (toks.map (fun t => Param.int (numericLead t)))
            :: handlerLines H cmd.handler (toks.map (fun t => Param.int (numericLead t))) } := by
  have hrx : q.rx ≠ [] := by
    intro e
    rw [e, readInput_nil] at hline
    exact absurd hline.symm (by simp)
  have hpc : parseCommand (readInput q.rx) = (name, List.intercalate [','] toks) := by
    rw [hline]; exact parseCommand_of_space _ _ hspace
  rw [loop_of_input H alloc q hrx]
  exact dispatch_success H alloc q.afterRead (readInput q.rx) i cmd _
    (by rw [hpc]; exact hname) (by rw [hpc]; exact hargs) (by rw [hpc]; exact hscan)
    (by rw [hpc]; exact parseAndValidateArgs_leads alloc cmd toks hshape hrange hargs hcount
          htypes hmax halloc)

theorem dispatch_literals (H : HandlerTable) (alloc : Nat → Bool) (q : Qlink)
    (i : Nat) (cmd : Command) (name : List Char) (toks : List (List Char)) (vs : List Int)
    (hline : readInput q.rx = name ++ ' ' :: List.intercalate [','] toks)
    (hlit : toks.map intLiteral = vs.map some)
    (hspace : ' ' ∉ name) (hname : name.length < 20)
    (hargs : (List.intercalate [','] toks).length < 30)
    (hscan : scan name q.commands 0 = some (i, cmd))
    (hcount : cmd.paramCount = (vs.length : Int))
    (htypes : cmd.paramTypes = List.replicate vs.length Args.INT)
    (hmax : vs.length ≤ MAX_VALUES)
    (halloc : ∀ k, k < vs.length → alloc k = true) :
    loop H alloc q
      = .ok { q.afterRead with
          status := true
          trace := q.trace ++ Event.call cmd.handler (vs.map Param.int)
            :: handlerLines H cmd.handler (vs.map Param.int) } := by
  obtain ⟨hlen, hmap, hrange, hshape⟩ := literals_spec toks vs hlit
  rw [← hmap]
  exact dispatch_leads H alloc q i cmd name toks hline hshape hrange hspace hname hargs
    hscan (by rw [hcount, hlen]) (by rw [htypes, hlen]) (by omega)
    (fun k hk => halloc k (by omega))

/-- C2 as stated fails. A second `sum` with two `INT` parameters is registered behind a
`sum` with one: the line `sum 5,3` is matched with the first and rejected. And with
`sum` registered alone the same line is rejected when the allocation of an argument
fails. -/
theorem int_dispatch_counterexample :
    loop sumTable allocOk
        (start [{ name := "sum".toList, handler := 1, paramCount := 1, paramTypes := [Args.INT] },
                sumReg.descriptor] "sum 5,3\n".toList)
      = .ok { commands := [{ name := "sum".toList, handler := 1, paramCount := 1,
                             paramTypes := [Args.INT] }, sumReg.descriptor],
              status := false, rx := [],
              trace := [Event.println "Error: Invalid parameters for \x27sum\x27".toList] }
    ∧ loop sumTable (fun _ => false) (start [sumReg.descriptor] "sum 5,3\n".toList)
      = .ok { commands := [sumReg.descriptor], status := false, rx := [],
              trace := [Event.println "Error: Invalid parameters for \x27sum\x27".toList] } := by
  decide

/-- C2, amended: let the line read be `name v1,...,vN`, with `name` free of spaces and at
most 19 characters, the arguments at most 29 characters, and every `vi` an integer
literal in the range of `int`; let the scan resolve `name` to the descriptor `cmd`, which
has `N ≤ MAX_VALUES` parameters, all `INT`; let the `N` allocations succeed. Then the tick
calls the handler of `cmd` exactly once, with `[v1, ..., vN]`. In particular, for every
handler table, allocation outcome and state in which `sum` resolves to a descriptor with
two `INT` parameters whose handler is the one of the usage example and in which the two
allocations succeed, the line `sum 5,3` yields the call with `5` and `3` and exactly the
response `Sum: 5 + 3 = 8`. -/
theorem int_dispatch (H : HandlerTable) (alloc : Nat → Bool) (q : Qlink)
    (i : Nat) (cmd : Command) (name : List Char) (toks : List (List Char)) (vs : List Int)
    (hline : readInput q.rx = name ++ ' ' :: List.intercalate [','] toks)
    (hlit : toks.map intLiteral = vs.map some)
    (hspace : ' ' ∉ name) (hname : name.length < 20)
    (hargs : (List.intercalate [','] toks).length < 30)
    (hscan : scan name q.commands 0 = some (i, cmd))
    (hcount : cmd.paramCount = (vs.length : Int))
    (htypes : cmd.paramTypes = List.replicate vs.length Args.INT)
    (hmax : vs.length ≤ MAX_VALUES)
    (halloc : ∀ k, k < vs.length → alloc k = true) :
    loop H alloc q
      = .ok { q.afterRead with
          status := true
          trace := q.trace ++ Event.call cmd.handler (vs.map Param.int)
            :: handlerLines H cmd.handler (vs.map Param.int) }
    ∧ ∀ (Hs : HandlerTable) (allocs : Nat → Bool) (qs : Qlink) (j : Nat) (sum : Command),
        readInput qs.rx = "sum 5,3".toList →
        scan "sum".toList qs.commands 0 = some (j, sum) →
        sum.paramCount = 2 →
        sum.paramTypes = [Args.INT, Args.INT] →
        (∀ params, Hs sum.handler params = sumHandler params) →
        allocs 0 = true → allocs 1 = true →
        loop Hs allocs qs
          = .ok { qs.afterRead with
              status := true
              trace := qs.trace ++ [Event.call sum.handler [Param.int 5, Param.int 3],
                Event.println "Sum: 5 + 3 = 8".toList] } := by
  refine ⟨dispatch_literals H alloc q i cmd name toks vs hline hlit hspace hname hargs hscan
    hcount htypes hmax halloc, ?_⟩
  intro Hs allocs qs j sum hsline hsscan hscount hstypes hshandler hs0 hs1
  have h := dispatch_literals Hs allocs qs j sum "sum".toList ["5".toList, "3".toList] [5, 3]
    hsline (by decide) (by decide) (by decide) (by decide) hsscan hscount hstypes (by decide)
    (fun k hk => by
      have : k = 0 ∨ k = 1 := by
        simp only [List.length_cons, List.length_nil] at hk; omega
      rcases this with rfl | rfl
      · exact hs0
      · exact hs1)
  rw [h]
  have hl : handlerLines Hs sum.handler (List.map Param.int [5, 3])
      = [Event.println "Sum: 5 + 3 = 8".toList] := by
    simp only [handlerLines, List.map_cons, List.map_nil, hshandler]
    decide
  rw [hl]
  rfl

theorem int_dispatch_witness :
    loop silent (fun k => decide (k = 0))
        (start [{ name := "dim".toList, handler := 8, paramCount := 1, paramTypes := [Args.INT] }]
          "dim -7\nsum 5,3\n".toList)
      = .ok { (start [{ name := "dim".toList, handler := 8, paramCount := 1,
                        paramTypes := [Args.INT] }] "dim -7\nsum 5,3\n".toList).afterRead with
          status := true
          trace := [] ++ Event.call 8 ([-7].map Param.int)
            :: handlerLines silent 8 ([-7].map Param.int) }
    ∧ loop sumTable allocOk (start [sumReg.descriptor] "sum 5,3\n".toList)
      = .ok { (start [sumReg.descriptor] "sum 5,3\n".toList).afterRead with
          status := true
          trace := [] ++ [Event.call 0 [Param.int 5, Param.int 3],
            Event.println "Sum: 5 + 3 = 8".toList] } :=
  ⟨(int_dispatch silent (fun k => decide (k = 0))
      (start [{ name := "dim".toList, handler := 8, paramCount := 1, paramTypes := [Args.INT] }]
        "dim -7\nsum 5,3\n".toList)
      0 { name := "dim".toList, handler := 8, paramCount := 1, paramTypes := [Args.INT] }
      "dim".toList ["-7".toList] [-7]
      (by decide) (by decide) (by decide) (by decide) (by decide) (by decide) (by decide)
      (by decide) (by decide) (by decide)).1,
   (int_dispatch silent (fun k => decide (k = 0))
      (start [{ name := "dim".toList, handler := 8, paramCount := 1, paramTypes := [Args.INT] }]
        "dim -7\nsum 5,3\n".toList)
      0 { name := "dim".toList, handler := 8, paramCount := 1, paramTypes := [Args.INT] }
      "dim".toList ["-7".toList] [-7]
      (by decide) (by decide) (by decide) (by decide) (by decide) (by decide) (by decide)
      (by decide) (by decide) (by decide)).2
      sumTable allocOk (start [sumReg.descriptor] "sum 5,3\n".toList) 0 sumReg.descriptor
      (by decide) (by decide) (by decide) (by decide) (fun _ => rfl) rfl rfl⟩

/-! ## Commands without parameters -/

/-- C10 as stated fails: a `go` without parameters is registered behind a `go` with one
parameter; the line `go` is matched with the first and rejected. -/
theorem bare_command_counterexample :
    loop silent allocOk
        (start [{ name := "go".toList, handler := 1, paramCount := 1, paramTypes := [Args.INT] },
                { name := "go".toList, handler := 2, paramCount := 0, paramTypes := [] }]
          "go\n".toList)
      = .ok { commands :=
                [{ name := "go".toList, handler := 1, paramCount := 1, paramTypes := [Args.INT] },
                 { name := "go".toList, handler := 2, paramCount := 0, paramTypes := [] }],
              status := false, rx := [],
              trace := [Event.println "Error: Invalid parameters for \x27go\x27".toList] } := by
  decide

/-- C10, amended: when the line read has no space and at most 19 characters, and the scan
resolves it to a descriptor `cmd` with zero parameters, the tick calls the handler of
`cmd` exactly once with the empty argument list, sets the flag, and writes no error line
(the trace gains the call and what the handler itself writes). -/
theorem bare_command (H : HandlerTable) (alloc : Nat → Bool) (q : Qlink)
    (i : Nat) (cmd : Command)
    (hrx : q.rx ≠ [])
    (hspace : ' ' ∉ readInput q.rx) (hname : (readInput q.rx).length < 20)
    (hscan : scan (readInput q.rx) q.commands 0 = some (i, cmd))
    (hzero : cmd.paramCount = 0) :
    loop H alloc q
      = .ok { q.afterRead with
          status := true
          trace := q.trace ++ Event.call cmd.handler [] :: handlerLines H cmd.handler [] } := by
  have hpc : parseCommand (readInput q.rx) = (readInput q.rx, []) :=
    parseCommand_of_no_space _ hspace
  have hparse : parseAndValidateArgs alloc [] cmd = .ok (some []) := by
    have hc : collectArgv MAX_VALUES [] = [] := by rfl
    simp [parseAndValidateArgs, hc, hzero, convertArgs]
  rw [loop_of_input H alloc q hrx]
  exact dispatch_success H alloc q.afterRead (readInput q.rx) i cmd []
    (by rw [hpc]; exact hname) (by rw [hpc]; simp) (by rw [hpc]; exact hscan)
    (by rw [hpc]; exact hparse)

theorem bare_command_witness :
    loop sumTable allocOk
        (start [{ name := "reset".toList, handler := 4, paramCount := 0, paramTypes := [] }]
          "reset\n".toList)
      = .ok { (start [{ name := "reset".toList, handler := 4, paramCount := 0,
                        paramTypes := [] }] "reset\n".toList).afterRead with
          status := true
          trace := [] ++ Event.call 4 [] :: handlerLines sumTable 4 [] } :=
  bare_command sumTable allocOk
    (start [{ name := "reset".toList, handler := 4, paramCount := 0, paramTypes := [] }]
      "reset\n".toList)
    0 { name := "reset".toList, handler := 4, paramCount := 0, paramTypes := [] }
    (by decide) (by decide) (by decide) (by decide) (by decide)

/-! ## Permissive integer parsing -/

/-- C8 as stated fails: the token `4294967296` has the numeric value 4294967296, which no
`int` holds; `atoi` is undefined on it and the conversion does not yield that value. -/
theorem int_conversion_counterexample :
    numericLead "4294967296".toList = 4294967296
    ∧ parseParam true "4294967296".toList Args.INT = .error Fault.intRange := by
  decide

/-- C8, amended: for every token whose leading numeric part has a value in the range of
`int`, the `INT` conversion yields that value when its allocation succeeds, and 0 when
the token has no leading digit; the conversion returns NULL exactly when the allocation
fails, whatever the text. So when `sum` resolves to a descriptor with two `INT`
parameters and both allocations succeed, the line `sum abc,3` is dispatched: the handler
is called with `0` and `3` and no `Error: Invalid parameters` line is written. -/
theorem int_conversion (H : HandlerTable) (alloc : Nat → Bool) (tok : List Char)
    (q : Qlink) (i : Nat) (cmd : Command)
    (hrange : INT_MIN ≤ numericLead tok ∧ numericLead tok ≤ INT_MAX)
    (hline : readInput q.rx = "sum abc,3".toList)
    (hscan : scan "sum".toList q.commands 0 = some (i, cmd))
    (hcount : cmd.paramCount = 2)
    (htypes : cmd.paramTypes = [Args.INT, Args.INT])
    (halloc : alloc 0 = true ∧ alloc 1 = true) :
    parseParam true tok Args.INT = .ok (some (Param.int (numericLead tok)))
    ∧ (leadDigits tok = [] → parseParam true tok Args.INT = .ok (some (Param.int 0)))
    ∧ parseParam false tok Args.INT = .ok none
    ∧ loop H alloc q
      = .ok { q.afterRead with
          status := true
          trace := q.trace ++ Event.call cmd.handler [Param.int 0, Param.int 3]
            :: handlerLines H cmd.handler [Param.int 0, Param.int 3] } := by
  refine ⟨parseParam_int tok hrange, ?_, by simp [parseParam], ?_⟩
  · intro hd
    have h0 : numericLead tok = 0 := by
      simp [numericLead, hd, decimalValue]
    have := parseParam_int tok hrange
    rwa [h0] at this
  · have h := dispatch_leads H alloc q i cmd "sum".toList ["abc".toList, "3".toList]
      hline (by decide) (by decide) (by decide) (by decide) (by decide) hscan hcount htypes
      (by decide)
      (fun k hk => by
        have : k = 0 ∨ k = 1 := by
          simp only [List.length_cons, List.length_nil] at hk; omega
        rcases this with rfl | rfl
        · exact halloc.1
        · exact halloc.2)
    rw [h]
    rfl

theorem int_conversion_witness :
    parseParam true " -42abc".toList Args.INT
        = .ok (some (Param.int (numericLead " -42abc".toList)))
    ∧ (leadDigits " -42abc".toList = []
        → parseParam true " -42abc".toList Args.INT = .ok (some (Param.int 0)))
    ∧ parseParam false " -42abc".toList Args.INT = .ok none
    ∧ loop sumTable allocOk (start [sumReg.descriptor] "sum abc,3\n".toList)
      = .ok { (start [sumReg.descriptor] "sum abc,3\n".toList).afterRead with
          status := true
          trace := [] ++ Event.call 0 [Param.int 0, Param.int 3]
            :: handlerLines sumTable 0 [Param.int 0, Param.int 3] } :=
  int_conversion sumTable allocOk " -42abc".toList (start [sumReg.descriptor] "sum abc,3\n".toList)
    0 sumReg.descriptor (by decide) (by decide) (by decide) (by decide) (by decide) ⟨rfl, rfl⟩

/-! ## The line tokenizer -/

theorem dropWhile_ne_of_mem (d : Char) :
    ∀ s : List Char, d ∈ s → ∃ r, s.dropWhile (fun c => c != d) = d :: r := by
  intro s
  induction s with
  | nil => intro h; simp at h
  | cons c t ih =>
    intro h
    by_cases hc : c = d
    · subst hc
      exact ⟨t, by simp [List.dropWhile]⟩
    · have hb : (c != d) = true := by simpa using hc
      have ht : d ∈ t := by
        rcases List.mem_cons.mp h with e | e
        · exact absurd e.symm hc
        · exact e
      obtain ⟨r, hr⟩ := ih ht
      exact ⟨r, by simp only [List.dropWhile_cons, hb, if_true, hr]⟩

/-- C7: `parseCommand` splits at the first space. If the line has a space, the command
name has none, and name, one space and raw arguments together are the line; if the
line has no space, the name is the whole line and the raw arguments are empty. -/
theorem parseCommand_split (input : List Char) :
    (' ' ∈ input →
      ' ' ∉ (parseCommand input).1
      ∧ (parseCommand input).1 = input.takeWhile (fun c => c != ' ')
      ∧ (parseCommand input).1 ++ ' ' :: (parseCommand input).2 = input)
    ∧ (' ' ∉ input → parseCommand input = (input, [])) := by
  refine ⟨fun h => ?_, parseCommand_of_no_space input⟩
  obtain ⟨r, hr⟩ := dropWhile_ne_of_mem ' ' input h
  simp only [parseCommand, h, if_true, hr, List.drop_one, List.tail_cons]
  refine ⟨?_, trivial, ?_⟩
  · intro hm
    have := List.mem_takeWhile_imp hm
    simp at this
  · rw [← hr]
    exact List.takeWhile_append_dropWhile _ _

/-! ## The argument tokens -/

/-- C4 as stated fails: for `1,,2` the code builds the two tokens `1` and `2`, the split
at every comma has an empty piece between them; for `1,2,3,4` the code builds three
tokens, the split has four pieces. -/
theorem argv_counterexample :
    collectArgv MAX_VALUES "1,,2".toList = ["1".toList, "2".toList]
    ∧ splitAtCommas "1,,2".toList = ["1".toList, [], "2".toList]
    ∧ collectArgv MAX_VALUES "1,2,3,4".toList = ["1".toList, "2".toList, "3".toList]
    ∧ splitAtCommas "1,2,3,4".toList = ["1".toList, "2".toList, "3".toList, "4".toList] := by
  decide

/-- C4, amended: for every raw argument string the tokens that `parseAndValidateArgs`
builds are the first `MAX_VALUES` non-empty pieces of the split at every comma, in order
and character for character (white space inside a piece is kept); empty pieces, which
consecutive, leading or trailing commas produce, are skipped. -/
theorem argv_eq_commaRuns (args : List Char) :
    collectArgv MAX_VALUES args = (commaRuns args).take MAX_VALUES
    ∧ ∀ t ∈ collectArgv MAX_VALUES args, t ∈ splitAtCommas args ∧ t ≠ [] := by
  refine ⟨collectArgv_eq MAX_VALUES args, ?_⟩
  intro t ht
  rw [collectArgv_eq] at ht
  have hm := List.mem_of_mem_take ht
  simp only [commaRuns, List.mem_filter] at hm
  refine ⟨hm.1, ?_⟩
  intro e
  rw [e] at hm
  simp at hm

/-! ## First match wins -/

theorem regAll_ok (rs : List Registration) :
    ∀ q : Qlink, (∀ r ∈ rs, r.WellFormed) →
      ∃ q1 more, regAll q rs = .ok q1 ∧ q1.commands = q.commands ++ more := by
  induction rs with
  | nil => intro q _; exact ⟨q, [], rfl, by simp⟩
  | cons r rs ih =>
    intro q hwf
    have hr : r.WellFormed := hwf r (List.mem_cons_self _ _)
    have hrest : ∀ x ∈ rs, x.WellFormed := fun x hx => hwf x (List.mem_cons_of_mem _ hx)
    by_cases hroom : q.commands.length < 20
    · obtain ⟨q1, more, h1, h2⟩ := ih { q with commands := q.commands ++ [r.descriptor] } hrest
      refine ⟨q1, r.descriptor :: more, ?_, ?_⟩
      · simp only [regAll, reg_of_room q r hroom hr, h1]
      · simpa using h2
    · obtain ⟨q1, more, h1, h2⟩ := ih
        { q with trace := q.trace ++ [Event.println "Error: Command limit reached".toList] } hrest
      refine ⟨q1, more, ?_, ?_⟩
      · simp only [regAll, reg_of_full q r.name r.handler r.paramCount r.paramTypes (by omega), h1]
      · simpa using h2

theorem dispatch_single (H : HandlerTable) (alloc : Nat → Bool) (q : Qlink) (input : List Char)
    (i : Nat) (c : Command) (hscan : scan (parseCommand input).1 q.commands 0 = some (i, c)) :
    dispatch H alloc q input
      = (dispatch H alloc { q with commands := [c] } input).map
          (fun r => { r with commands := q.commands }) := by
  have hname : c.name = (parseCommand input).1 := (scan_some _ _ 0 i c hscan).2.2.1
  have hone : scan (parseCommand input).1 [c] 0 = some (0, c) := by
    simp [scan, hname]
  unfold dispatch
  simp only [hscan, hone]
  split
  · rfl
  · split
    · rfl
    · cases parseAndValidateArgs alloc (parseCommand input).2 c with
      | error f => rfl
      | ok r =>
        cases r with
        | none => rfl
        | some params => simp [invoke_eq, Except.map]

/-- C6: the scan stops at the lowest index whose name equals the command name exactly;
the tick then behaves as if that descriptor were the only one registered; and after any
further well-formed `reg` calls the name still resolves to the same index and
descriptor. -/
theorem first_match_wins (H : HandlerTable) (alloc : Nat → Bool) (q : Qlink)
    (name : List Char) (i : Nat) (c : Command) (rs : List Registration) (input : List Char)
    (hscan : scan name q.commands 0 = some (i, c))
    (hwf : ∀ r ∈ rs, r.WellFormed)
    (hinput : (parseCommand input).1 = name) :
    (q.commands.get? i = some c ∧ c.name = name
      ∧ ∀ j d, j < i → q.commands.get? j = some d → d.name ≠ name)
    ∧ dispatch H alloc q input
        = (dispatch H alloc { q with commands := [c] } input).map
            (fun r => { r with commands := q.commands })
    ∧ ∃ q1, regAll q rs = .ok q1 ∧ scan name q1.commands 0 = some (i, c) := by
  obtain ⟨_, h1, h2, h3⟩ := scan_some name q.commands 0 i c hscan
  refine ⟨⟨by simpa using h1, h2, fun j d hj hd => h3 j (by simpa using hj) d hd⟩, ?_, ?_⟩
  · exact dispatch_single H alloc q input i c (by rw [hinput]; exact hscan)
  · obtain ⟨q1, more, hq1, hc⟩ := regAll_ok rs q hwf
    exact ⟨q1, hq1, by rw [hc]; exact scan_append name q.commands more 0 i c hscan⟩

theorem first_match_wins_witness :
    ((start [{ name := "sum".toList, handler := 1, paramCount := 1, paramTypes := [Args.INT] },
             sumReg.descriptor] []).commands.get? 0
        = some { name := "sum".toList, handler := 1, paramCount := 1, paramTypes := [Args.INT] }
      ∧ (⟨"sum".toList, 1, 1, [Args.INT]⟩ : Command).name = "sum".toList
      ∧ ∀ j d, j < 0 →
          (start [{ name := "sum".toList, handler := 1, paramCount := 1,
                    paramTypes := [Args.INT] }, sumReg.descriptor] []).commands.get? j = some d →
          d.name ≠ "sum".toList)
    ∧ dispatch sumTable allocOk
        (start [{ name := "sum".toList, handler := 1, paramCount := 1, paramTypes := [Args.INT] },
                sumReg.descriptor] []) "sum 5,3".toList
      = (dispatch sumTable allocOk
          { start [{ name := "sum".toList, handler := 1, paramCount := 1,
                     paramTypes := [Args.INT] }, sumReg.descriptor] [] with
            commands := [{ name := "sum".toList, handler := 1, paramCount := 1,
                           paramTypes := [Args.INT] }] } "sum 5,3".toList).map
          (fun r => { r with commands :=
            (start [{ name := "sum".toList, handler := 1, paramCount := 1,
                      paramTypes := [Args.INT] }, sumReg.descriptor] []).commands })
    ∧ ∃ q1, regAll
          (start [{ name := "sum".toList, handler := 1, paramCount := 1,
                    paramTypes := [Args.INT] }, sumReg.descriptor] [])
          [sumReg, { name := "sum".toList, handler := 9, paramCount := 0, paramTypes := [] }]
          = .ok q1
        ∧ scan "sum".toList q1.commands 0
          = some (0, { name := "sum".toList, handler := 1, paramCount := 1,
                       paramTypes := [Args.INT] }) :=
  first_match_wins sumTable allocOk
    (start [{ name := "sum".toList, handler := 1, paramCount := 1, paramTypes := [Args.INT] },
            sumReg.descriptor] [])
    "sum".toList 0 { name := "sum".toList, handler := 1, paramCount := 1, paramTypes := [Args.INT] }
    [sumReg, { name := "sum".toList, handler := 9, paramCount := 0, paramTypes := [] }]
    "sum 5,3".toList (by decide) (by decide) (by decide)

/-! ## The one-shot flag -/

theorem handlerCalls_handlerLines (H : HandlerTable) (handler : Nat) (params : List Param) :
    handlerCalls (handlerLines H handler params) = 0 := by
  simp only [handlerCalls, handlerLines, List.countP_eq_zero, List.mem_map]
  rintro e ⟨r, _, rfl⟩
  simp [Event.isCall]

theorem dispatch_outcome (H : HandlerTable) (alloc : Nat → Bool) (q q1 : Qlink)
    (input : List Char) (h : dispatch H alloc q input = .ok q1) :
    (∃ line, q1 = { q with trace := q.trace ++ [Event.println line] })
    ∨ (∃ handler params, q1 = { q with
          status := true
          trace := q.trace ++ Event.call handler params :: handlerLines H handler params }) := by
  unfold dispatch at h
  simp only at h
  split at h
  · simp at h
  · split at h
    · simp at h
    · split at h
      · rename_i cmd _
        split at h
        · simp at h
        · rename_i params _
          right
          refine ⟨cmd.handler, params, ?_⟩
          simp only [Except.ok.injEq, invoke_eq] at h
          exact h.symm
        · left
          simp only [Except.ok.injEq, response] at h
          exact ⟨_, h.symm⟩
      · left
        simp only [Except.ok.injEq, response] at h
        exact ⟨_, h.symm⟩

theorem loop_status (H : HandlerTable) (alloc : Nat → Bool) (q q1 : Qlink)
    (h : loop H alloc q = .ok q1) :
    q1.status = (q.status || decide (0 < handlerCalls q1.trace - handlerCalls q.trace)) := by
  unfold loop at h
  split at h
  · rcases dispatch_outcome H alloc _ q1 _ h with ⟨line, rfl⟩ | ⟨handler, params, rfl⟩
    · simp [handlerCalls, Event.isCall]
    · have := handlerCalls_handlerLines H handler params
      simp only [handlerCalls] at this
      simp [handlerCalls, Event.isCall, List.countP_cons, this]
  · simp only [Except.ok.injEq] at h
    subst h
    simp

theorem run_oneShot (H : HandlerTable) (ops : List Op) :
    ∀ q : Qlink, oneShot q.status (run H q ops) = true := by
  induction ops with
  | nil => intro q; rfl
  | cons op ops ih =>
    intro q
    cases op with
    | tick alloc =>
      cases h : loop H alloc q with
      | error f => simp [run, h, oneShot]
      | ok q1 =>
        simp only [run, h, oneShot]
        rw [← loop_status H alloc q q1 h]
        exact ih q1
    | query =>
      simp only [run, oneShot, Bool.and_eq_true, beq_iff_eq]
      refine ⟨?_, ?_⟩
      · cases hs : q.status <;> simp [available, hs]
      · have hst : (available q).2.status = false := by
          cases hs : q.status <;> simp [available, hs]
        have := ih (available q).2
        rwa [hst] at this

/-- A run on the usage example: a dispatched line, two queries, an unknown command, a
query. -/
theorem run_example :
    run sumTable (start [sumReg.descriptor] "sum 5,3\nzzz\n".toList)
        [Op.tick allocOk, Op.query, Op.query, Op.tick allocOk, Op.query]
      = [Obs.ticked 1, Obs.answer true, Obs.answer false, Obs.ticked 0, Obs.answer false] := by
  decide

/-- C9: in every run of ticks and queries, from any state, each answer of `available` is
true exactly when a tick has called a handler since the previous query (the flag as it
stood at the start counting as pending); so from the constructed state the answer is
false before any successful dispatch, and a query that directly follows a query always
answers false. -/
theorem available_one_shot (H : HandlerTable) (q : Qlink) (ops : List Op) :
    oneShot q.status (run H q ops) = true
    ∧ (∀ rx, (new rx).status = false)
    ∧ (available (available q).2).1 = false := by
  refine ⟨run_oneShot H ops q, fun _ => rfl, ?_⟩
  cases hs : q.status <;> simp [available, hs]

/-! ## The buffers of `loop` -/

/-- C18: a line of 20 letters has at most 49 characters, yet the command name
`parseCommand` produces has 20 characters and, with its terminator, does not fit
`command[20]`; a line of a one-letter name, a space and 30 characters has 32
characters, yet its raw argument string has 30 characters and does not fit `args[30]`.
The tick on either line has undefined behaviour. -/
theorem buffers_overflow :
    ("abcdefghijklmnopqrst".toList.length ≤ 49
      ∧ (parseCommand "abcdefghijklmnopqrst".toList).1.length = 20
      ∧ loop silent allocOk (start [] "abcdefghijklmnopqrst\n".toList)
          = .error Fault.commandBuffer)
    ∧ ("a 123456789012345678901234567890".toList.length ≤ 49
      ∧ (parseCommand "a 123456789012345678901234567890".toList).2.length = 30
      ∧ loop silent allocOk (start [] "a 123456789012345678901234567890\n".toList)
          = .error Fault.argsBuffer) := by
  decide

/-- What does hold of the two copies: together with the space between them they are as
long as the line, so a line of at most 49 characters yields a name of at most 49 and
arguments of at most 48 characters. -/
theorem parseCommand_length (input : List Char) :
    (parseCommand input).1.length + (parseCommand input).2.length ≤ input.length := by
  by_cases h : ' ' ∈ input
  · obtain ⟨r, hr⟩ := dropWhile_ne_of_mem ' ' input h
    have hsplit := List.takeWhile_append_dropWhile (fun c => c != ' ') input
    have hlen := congrArg List.length hsplit
    simp only [parseCommand, h, if_true, hr, List.drop_one, List.tail_cons]
    rw [hr] at hlen
    simp only [List.length_append, List.length_cons] at hlen
    omega
  · simp [parseCommand, h]

/-! ## The response line -/

/-- The rendering of the usage example, and a template with a width, which is not covered. -/
theorem rendering_example :
    rendering "Sum: %d + %d = %d".toList [FmtArg.int 5, FmtArg.int 3, FmtArg.int 8]
      = some "Sum: 5 + 3 = 8".toList
    ∧ rendering "100%% of %s: %d".toList [FmtArg.str "x y".toList, FmtArg.int (-40)]
      = some "100% of x y: -40".toList
    ∧ rendering "[%5d]".toList [FmtArg.int 42] = none := by
  decide

/-- A response of 120 characters is cut to its first 99. -/
theorem response_long_example :
    (rendering (List.replicate 40 'x' ++ "%s".toList) [FmtArg.str (List.replicate 80 'y')]).map
        List.length = some 120
    ∧ response (start [] []) (List.replicate 40 'x' ++ "%s".toList)
          [FmtArg.str (List.replicate 80 'y')]
        = { start [] [] with
            trace := [Event.println (List.replicate 40 'x' ++ List.replicate 59 'y')] } := by
  decide

/-! ## Text arguments -/

theorem commaRuns_single (s : List Char) (hne : s ≠ []) (hc : ',' ∉ s) : commaRuns s = [s] := by
  have h := commaRuns_intercalate [s] (by
    intro t ht
    rw [List.mem_singleton] at ht
    subst ht
    exact ⟨hne, hc⟩)
  simpa [List.intercalate] using h

theorem parseAndValidateArgs_text (alloc : Nat → Bool) (cmd : Command) (s : List Char)
    (hne : s ≠ []) (hc : ',' ∉ s) (hlen : s.length < 50)
    (hcount : cmd.paramCount = 1) (htypes : cmd.paramTypes = [Args.STRING])
    (halloc : alloc 0 = true) :
    parseAndValidateArgs alloc s cmd = .ok (some [Param.str s]) := by
  have h1 : ¬ 50 ≤ s.length := by omega
  have h2 : collectArgv MAX_VALUES s = [s] := by
    rw [collectArgv_eq, commaRuns_single s hne hc]
    rfl
  unfold parseAndValidateArgs
  rw [if_neg h1]
  simp only [h2, hcount, htypes]
  simp [convertArgs, parseParam, halloc]

/-- C11 as stated fails: a `say` with one `STRING` parameter is registered behind a `say`
without parameters, and the line `say hi there` is matched with the first and rejected;
and with `say` registered alone the same line is rejected when the copy of the text
cannot be allocated. -/
theorem text_dispatch_counterexample :
    loop silent allocOk
        (start [{ name := "say".toList, handler := 1, paramCount := 0, paramTypes := [] },
                sayCommand] "say hi there\n".toList)
      = .ok { commands := [{ name := "say".toList, handler := 1, paramCount := 0,
                             paramTypes := [] }, sayCommand],
              status := false, rx := [],
              trace := [Event.println "Error: Invalid parameters for \x27say\x27".toList] }
    ∧ loop silent (fun _ => false) (start [sayCommand] "say hi there\n".toList)
      = .ok { commands := [sayCommand], status := false, rx := [],
              trace := [Event.println "Error: Invalid parameters for \x27say\x27".toList] } := by
  decide

/-- C11, amended: let the line read be `name s`, with `name` free of spaces and at most
19 characters and `s` non-empty, free of commas and at most 29 characters; let the scan
resolve `name` to the descriptor `cmd`, which has exactly one parameter, of kind
`STRING`; let the copy of the text be allocated. Then the tick calls the handler of `cmd`
exactly once, with the one value `s`, character for character: white space at either end
is kept and nothing is unescaped or unquoted. -/
theorem text_dispatch (H : HandlerTable) (alloc : Nat → Bool) (q : Qlink)
    (i : Nat) (cmd : Command) (name s : List Char)
    (hline : readInput q.rx = name ++ ' ' :: s)
    (hspace : ' ' ∉ name) (hname : name.length < 20)
    (hne : s ≠ []) (hc : ',' ∉ s) (hlen : s.length < 30)
    (hscan : scan name q.commands 0 = some (i, cmd))
    (hcount : cmd.paramCount = 1) (htypes : cmd.paramTypes = [Args.STRING])
    (halloc : alloc 0 = true) :
    loop H alloc q
      = .ok { q.afterRead with
          status := true
          trace := q.trace ++ Event.call cmd.handler [Param.str s]
            :: handlerLines H cmd.handler [Param.str s] } := by
  have hrx : q.rx ≠ [] := by
    intro e
    rw [e, readInput_nil] at hline
    exact absurd hline.symm (by simp)
  have hpc : parseCommand (readInput q.rx) = (name, s) := by
    rw [hline]; exact parseCommand_of_space _ _ hspace
  rw [loop_of_input H alloc q hrx]
  exact dispatch_success H alloc q.afterRead (readInput q.rx) i cmd _
    (by rw [hpc]; exact hname) (by rw [hpc]; exact hlen) (by rw [hpc]; exact hscan)
    (by rw [hpc]; exact parseAndValidateArgs_text alloc cmd s hne hc (by omega) hcount htypes
          halloc)

theorem text_dispatch_witness :
    loop silent allocOk (start [sayCommand] "say  \x22hi\x22 there \n".toList)
      = .ok { (start [sayCommand] "say  \x22hi\x22 there \n".toList).afterRead with
          status := true
          trace := [] ++ Event.call sayCommand.handler [Param.str " \x22hi\x22 there ".toList]
            :: handlerLines silent sayCommand.handler [Param.str " \x22hi\x22 there ".toList] } :=
  text_dispatch silent allocOk (start [sayCommand] "say  \x22hi\x22 there \n".toList)
    0 sayCommand "say".toList " \x22hi\x22 there ".toList
    (by decide) (by decide) (by decide) (by decide) (by decide) (by decide) (by decide)
    (by decide) (by decide) (by decide)

/-! ## One line per tick -/

theorem readBytesUntil_line (t : Char) (rest : List Char) :
    ∀ (line : List Char) (n : Nat), t ∉ line → line.length < n →
      readBytesUntil t (line ++ t :: rest) n = (line, rest) := by
  intro line
  induction line with
  | nil =>
    intro n _ hn
    cases n with
    | zero => simp at hn
    | succ n => simp [readBytesUntil]
  | cons c l ih =>
    intro n hmem hn
    cases n with
    | zero => simp at hn
    | succ n =>
      have hc : c ≠ t := fun e => hmem (by simp [e])
      have hl : t ∉ l := fun e => hmem (List.mem_cons_of_mem _ e)
      have := ih n hl (by simpa using hn)
      simp [readBytesUntil, hc, this]

theorem readBytesUntil_long (t : Char) (tail : List Char) :
    ∀ (line : List Char) (n : Nat), t ∉ line → n ≤ line.length →
      readBytesUntil t (line ++ tail) n = (line.take n, line.drop n ++ tail) := by
  intro line
  induction line with
  | nil =>
    intro n _ hn
    have : n = 0 := by simpa using hn
    subst this
    simp [readBytesUntil]
  | cons c l ih =>
    intro n hmem hn
    cases n with
    | zero => simp [readBytesUntil]
    | succ n =>
      have hc : c ≠ t := fun e => hmem (by simp [e])
      have hl : t ∉ l := fun e => hmem (List.mem_cons_of_mem _ e)
      have := ih n hl (by simpa using hn)
      simp [readBytesUntil, hc, this]

theorem dispatch_rx (H : HandlerTable) (alloc : Nat → Bool) (p p1 : Qlink) (input : List Char)
    (h : dispatch H alloc p input = .ok p1) :
    p1.rx = p.rx ∧ p1.commands = p.commands := by
  rcases dispatch_outcome H alloc p p1 input h with ⟨line, rfl⟩ | ⟨handler, params, rfl⟩
  · exact ⟨rfl, rfl⟩
  · exact ⟨rfl, rfl⟩

/-- C13 as stated fails: the stream holds the two complete lines `line49` (49
characters) and `zzz`; the tick stores the 49 characters and stops reading, so the
newline that ends the first line stays in the stream, in front of the second line. -/
theorem one_line_counterexample :
    line49.length = 49
    ∧ loop silent allocOk (start [] (line49 ++ "\nzzz\n".toList))
      = .ok { commands := [], status := false, rx := "\nzzz\n".toList,
              trace := [Event.println
                "Error: Unknown command \x27abcdefghijklmnopqrs\x27".toList] } := by
  decide

/-- C13, amended: a tick on a stream without available bytes changes nothing. When the
stream holds a first line (bytes without newline, then a newline) of at most 48
characters, the tick consumes that line through its newline, dispatches exactly that line
(as the C string it is), and leaves every later byte in the stream. When the first line
has 49 characters or more, the tick consumes and dispatches its first 49 characters only;
the rest of the line and its newline stay in the stream. -/
theorem one_line_per_tick (H : HandlerTable) (alloc : Nat → Bool) (q : Qlink)
    (line rest : List Char)
    (hnl : '\n' ∉ line) (hrx : q.rx = line ++ '\n' :: rest) :
    (∀ p : Qlink, p.rx = [] → loop H alloc p = .ok p)
    ∧ (line.length < 49 →
        loop H alloc q = dispatch H alloc { q with rx := rest } (cstr line)
        ∧ ∀ q1, loop H alloc q = .ok q1 → q1.rx = rest)
    ∧ (49 ≤ line.length →
        loop H alloc q
          = dispatch H alloc { q with rx := line.drop 49 ++ '\n' :: rest } (cstr (line.take 49))
        ∧ ∀ q1, loop H alloc q = .ok q1 → q1.rx = line.drop 49 ++ '\n' :: rest) := by
  have hne : q.rx ≠ [] := by rw [hrx]; simp
  refine ⟨?_, ?_, ?_⟩
  · intro p hp
    simp [loop, hp]
  · intro hlen
    have hread := readBytesUntil_line '\n' rest line 49 hnl hlen
    have hloop : loop H alloc q = dispatch H alloc { q with rx := rest } (cstr line) := by
      rw [loop_of_input H alloc q hne]
      simp only [Qlink.afterRead, readInput, hrx, hread]
    refine ⟨hloop, ?_⟩
    intro q1 h1
    rw [hloop] at h1
    exact (dispatch_rx H alloc _ q1 _ h1).1
  · intro hlen
    have hread := readBytesUntil_long '\n' ('\n' :: rest) line 49 hnl hlen
    have hloop : loop H alloc q
        = dispatch H alloc { q with rx := line.drop 49 ++ '\n' :: rest }
            (cstr (line.take 49)) := by
      rw [loop_of_input H alloc q hne]
      simp only [Qlink.afterRead, readInput, hrx, hread]
    refine ⟨hloop, ?_⟩
    intro q1 h1
    rw [hloop] at h1
    exact (dispatch_rx H alloc _ q1 _ h1).1

theorem one_line_per_tick_witness :
    (∀ p : Qlink, p.rx = [] → loop sumTable allocOk p = .ok p)
    ∧ ("sum 5,3".toList.length < 49 →
        loop sumTable allocOk (start [sumReg.descriptor] "sum 5,3\nzzz\nsum 1,1\n".toList)
          = dispatch sumTable allocOk
              { start [sumReg.descriptor] "sum 5,3\nzzz\nsum 1,1\n".toList with
                rx := "zzz\nsum 1,1\n".toList } (cstr "sum 5,3".toList)
        ∧ ∀ q1, loop sumTable allocOk
              (start [sumReg.descriptor] "sum 5,3\nzzz\nsum 1,1\n".toList) = .ok q1 →
            q1.rx = "zzz\nsum 1,1\n".toList)
    ∧ (49 ≤ "sum 5,3".toList.length →
        loop sumTable allocOk (start [sumReg.descriptor] "sum 5,3\nzzz\nsum 1,1\n".toList)
          = dispatch sumTable allocOk
              { start [sumReg.descriptor] "sum 5,3\nzzz\nsum 1,1\n".toList with
                rx := "sum 5,3".toList.drop 49 ++ '\n' :: "zzz\nsum 1,1\n".toList }
              (cstr ("sum 5,3".toList.take 49))
        ∧ ∀ q1, loop sumTable allocOk
              (start [sumReg.descriptor] "sum 5,3\nzzz\nsum 1,1\n".toList) = .ok q1 →
            q1.rx = "sum 5,3".toList.drop 49 ++ '\n' :: "zzz\nsum 1,1\n".toList) :=
  one_line_per_tick sumTable allocOk
    (start [sumReg.descriptor] "sum 5,3\nzzz\nsum 1,1\n".toList)
    "sum 5,3".toList "zzz\nsum 1,1\n".toList (by decide) (by decide)

/-! ## The registry invariant -/

theorem reg_commandCount (q q1 : Qlink) (name : List Char) (handler : Nat) (paramCount : Int)
    (paramTypes : List Args) (hq : q.commandCount ≤ 20)
    (h : reg q name handler paramCount paramTypes = .ok q1) : q1.commandCount ≤ 20 := by
  unfold reg at h
  split at h
  · simp only [Except.ok.injEq] at h
    subst h
    exact hq
  · split at h
    · simp at h
    · rename_i hfull _
      simp only [Except.ok.injEq] at h
      subst h
      simp only [Qlink.commandCount, List.length_append, List.length_cons, List.length_nil] at hfull ⊢
      omega

theorem loop_commands (H : HandlerTable) (alloc : Nat → Bool) (p p1 : Qlink)
    (h : loop H alloc p = .ok p1) : p1.commands = p.commands := by
  unfold loop at h
  split at h
  · exact (dispatch_rx H alloc _ p1 _ h).2
  · simp only [Except.ok.injEq] at h
    subst h
    rfl

theorem available_commands (p : Qlink) : (available p).2.commands = p.commands := by
  unfold available
  split <;> rfl

theorem call_commandCount (H : HandlerTable) (q q1 : Qlink) (c : Call)
    (hq : q.commandCount ≤ 20) (h : call H q c = .ok q1) : q1.commandCount ≤ 20 := by
  cases c with
  | reg r => exact reg_commandCount q q1 _ _ _ _ hq h
  | loop alloc =>
    have := loop_commands H alloc q q1 h
    simp only [Qlink.commandCount, this] at hq ⊢
    exact hq
  | available =>
    simp only [call, Except.ok.injEq] at h
    subst h
    simp only [Qlink.commandCount, available_commands] at hq ⊢
    exact hq
  | response fmt as =>
    simp only [call, Except.ok.injEq] at h
    subst h
    exact hq

theorem calls_commandCount (H : HandlerTable) (cs : List Call) :
    ∀ q q1 : Qlink, q.commandCount ≤ 20 → calls H q cs = .ok q1 → q1.commandCount ≤ 20 := by
  induction cs with
  | nil =>
    intro q q1 hq h
    simp only [calls, Except.ok.injEq] at h
    subst h
    exact hq
  | cons c cs ih =>
    intro q q1 hq h
    cases hc : call H q c with
    | error f => simp [calls, hc] at h
    | ok q2 =>
      simp only [calls, hc] at h
      exact ih q2 q1 (call_commandCount H q q2 c hq hc) h

/-- C12: every state reached from the constructor by `reg`, `loop`, `available` and
`response` calls has between 0 and 20 registered commands; and `loop` (when it
dispatches, when it rejects the parameters, when it does not know the command, and when
there is no input), `available` and `response` leave the registry as it was. -/
theorem registry_invariant (H : HandlerTable) (rx : List Char) (cs : List Call) (q : Qlink)
    (alloc : Nat → Bool) (p : Qlink) (fmt : List Char) (as : List FmtArg)
    (hreach : calls H (new rx) cs = .ok q) :
    (0 ≤ (q.commandCount : Int) ∧ q.commandCount ≤ 20)
    ∧ (∀ p1, loop H alloc p = .ok p1 →
        p1.commands = p.commands ∧ p1.commandCount = p.commandCount)
    ∧ ((available p).2.commands = p.commands
        ∧ (available p).2.commandCount = p.commandCount)
    ∧ ((response p fmt as).commands = p.commands
        ∧ (response p fmt as).commandCount = p.commandCount) := by
  refine ⟨⟨Int.ofNat_nonneg _, ?_⟩, ?_, ?_, ⟨rfl, rfl⟩⟩
  · exact calls_commandCount H cs (new rx) q (by simp [new, Qlink.commandCount]) hreach
  · intro p1 h
    have := loop_commands H alloc p p1 h
    exact ⟨this, by simp only [Qlink.commandCount, this]⟩
  · have := available_commands p
    exact ⟨this, by simp only [Qlink.commandCount, this]⟩

theorem registry_invariant_witness :
    calls sumTable (new "sum 5,3\nsum 1\nzzz\n".toList)
        [Call.reg sumReg, Call.loop allocOk, Call.available, Call.loop allocOk,
         Call.loop allocOk, Call.response "ready".toList []]
      = .ok afterCalls
    ∧ (0 ≤ (afterCalls.commandCount : Int) ∧ afterCalls.commandCount ≤ 20)
    ∧ (∀ p1, loop sumTable allocOk (start [sumReg.descriptor] "sum 5,3\n".toList) = .ok p1 →
        p1.commands = (start [sumReg.descriptor] "sum 5,3\n".toList).commands
        ∧ p1.commandCount = (start [sumReg.descriptor] "sum 5,3\n".toList).commandCount)
    ∧ ((available (start [sumReg.descriptor] "sum 5,3\n".toList)).2.commands
          = (start [sumReg.descriptor] "sum 5,3\n".toList).commands
        ∧ (available (start [sumReg.descriptor] "sum 5,3\n".toList)).2.commandCount
          = (start [sumReg.descriptor] "sum 5,3\n".toList).commandCount)
    ∧ ((response (start [sumReg.descriptor] "sum 5,3\n".toList) "ok".toList []).commands
          = (start [sumReg.descriptor] "sum 5,3\n".toList).commands
        ∧ (response (start [sumReg.descriptor] "sum 5,3\n".toList) "ok".toList []).commandCount
          = (start [sumReg.descriptor] "sum 5,3\n".toList).commandCount) :=
  ⟨by decide,
    registry_invariant sumTable "sum 5,3\nsum 1\nzzz\n".toList
      [Call.reg sumReg, Call.loop allocOk, Call.available, Call.loop allocOk,
       Call.loop allocOk, Call.response "ready".toList []]
      afterCalls allocOk (start [sumReg.descriptor] "sum 5,3\n".toList) "ok".toList [] (by decide)⟩

/-! ## The LONG conversion -/

/-- The token ` -7.25e1xyz` is read as -72.5 and converts to -72; the tokens `inf`, `NaN`
and `0x1A` are not in decimal notation, and `0.99999999999999999999` has too many
digits. -/
theorem long_conversion_example :
    atof " -7.25e1xyz".toList = { mant := -725, exp := -1 }
    ∧ (atof " -7.25e1xyz".toList).wholePart = -72
    ∧ SmallDecimal " -7.25e1xyz".toList
    ∧ decimalToken "inf".toList = false
    ∧ decimalToken " -NaN".toList = false
    ∧ decimalToken "0x1A".toList = false
    ∧ ¬ SmallDecimal "0.99999999999999999999".toList := by
  decide

/-- The single-precision number nearest to 12.9 is 13526630 / 2^20; it is one of the
numbers `12.9` may be rounded to, and it converts to 12. -/
theorem rounded_example :
    Rounded (atof "12.9".toList) (13526630 / 1048576) ∧ cTrunc (13526630 / 1048576) = 12 := by
  have hd : atof "12.9".toList = { mant := 129, exp := -1 } := by decide
  have hv : (atof "12.9".toList).value = 129 / 10 := by
    rw [hd]
    simp only [Dec.value]
    norm_num
  refine ⟨⟨Or.inl ?_, ?_⟩, ?_⟩
  · rw [hv]
    norm_num [abs_of_neg, abs_of_pos]
  · intro n hn _
    exfalso
    rw [hv] at hn
    have h10 : (129 : ℚ) = 10 * (n : ℚ) := by linarith
    have h10i : (129 : Int) = 10 * n := by exact_mod_cast h10
    omega
  · unfold cTrunc
    rw [if_pos (by norm_num), Int.floor_eq_iff]
    constructor <;> norm_num

/-! ## The outcomes of a tick -/

theorem invalid_ne_unknown (a b : List Char) :
    "Error: Invalid parameters for \x27".toList ++ a ++ "\x27".toList
      ≠ "Error: Unknown command \x27".toList ++ b ++ "\x27".toList := by
  have e1 : "Error: Invalid parameters for \x27".toList
      = "Error: ".toList ++ 'I' :: "nvalid parameters for \x27".toList := by decide
  have e2 : "Error: Unknown command \x27".toList
      = "Error: ".toList ++ 'U' :: "nknown command \x27".toList := by decide
  rw [e1, e2]
  intro h
  simp only [List.append_assoc, List.cons_append] at h
  have h2 := List.append_cancel_left h
  simp only [List.cons.injEq] at h2
  exact absurd h2.1 (by decide)

/-- A tick that consumes a line and whose behaviour is defined ends in exactly one of
the three outcomes, and it sets the flag exactly when it called a handler; in the two
error outcomes the flag stays as it was. -/
theorem tick_outcome (H : HandlerTable) (alloc : Nat → Bool) (q q1 : Qlink)
    (hrx : q.rx ≠ []) (h : loop H alloc q = .ok q1) :
    (Dispatched H q q1 ∨ Rejected q q1 ∨ Unknown q q1)
    ∧ ¬ (Dispatched H q q1 ∧ Rejected q q1)
    ∧ ¬ (Dispatched H q q1 ∧ Unknown q q1)
    ∧ ¬ (Rejected q q1 ∧ Unknown q q1)
    ∧ (Dispatched H q q1 ↔ 0 < handlerCalls q1.trace - handlerCalls q.trace)
    ∧ (Rejected q q1 ∨ Unknown q q1 → q1.status = q.status) := by
  have hexcl1 : ¬ (Dispatched H q q1 ∧ Rejected q q1) := by
    rintro ⟨⟨i, cmd, params, _, e1⟩, e2⟩
    rw [e1] at e2
    have := congrArg Qlink.trace e2
    simp at this
  have hexcl2 : ¬ (Dispatched H q q1 ∧ Unknown q q1) := by
    rintro ⟨⟨i, cmd, params, _, e1⟩, e2⟩
    rw [e1] at e2
    have := congrArg Qlink.trace e2
    simp at this
  have hexcl3 : ¬ (Rejected q q1 ∧ Unknown q q1) := by
    rintro ⟨e1, e2⟩
    rw [e1] at e2
    have := congrArg Qlink.trace e2
    simp only [List.append_cancel_left_eq, List.cons.injEq, Event.println.injEq, and_true] at this
    exact invalid_ne_unknown _ _ this
  have hcalls_err : ∀ line, handlerCalls (q.trace ++ [Event.println line]) - handlerCalls q.trace = 0 := by
    intro line
    simp [handlerCalls, Event.isCall]
  have hcalls_ok : ∀ handler params,
      0 < handlerCalls (q.trace ++ Event.call handler params :: handlerLines H handler params)
            - handlerCalls q.trace := by
    intro handler params
    have := handlerCalls_handlerLines H handler params
    simp only [handlerCalls] at this
    simp [handlerCalls, Event.isCall, List.countP_cons, this]
  rw [loop_of_input H alloc q hrx] at h
  unfold dispatch at h
  simp only at h
  split at h
  · simp at h
  · split at h
    · simp at h
    · rename_i hn ha
      have hname : (parseCommand (readInput q.rx)).1.length < 20 := by omega
      split at h
      · rename_i i cmd hscan
        split at h
        · simp at h
        · rename_i params _
          simp only [Except.ok.injEq, invoke_eq] at h
          have hD : Dispatched H q q1 := ⟨i, cmd, params, hscan, h.symm⟩
          refine ⟨Or.inl hD, hexcl1, hexcl2, hexcl3, ⟨fun _ => ?_, fun _ => hD⟩, ?_⟩
          · rw [← h]; exact hcalls_ok _ _
          · rintro (hR | hU)
            · exact absurd ⟨hD, hR⟩ hexcl1
            · exact absurd ⟨hD, hU⟩ hexcl2
        · simp only [Except.ok.injEq, response_invalid _ _ hname] at h
          have hR : Rejected q q1 := h.symm
          refine ⟨Or.inr (Or.inl hR), hexcl1, hexcl2, hexcl3, ⟨fun hD => ?_, fun hc => ?_⟩, ?_⟩
          · exact absurd ⟨hD, hR⟩ hexcl1
          · rw [← h] at hc
            have := hcalls_err ("Error: Invalid parameters for \x27".toList
              ++ (parseCommand (readInput q.rx)).1 ++ "\x27".toList)
            simp only [Qlink.afterRead] at hc
            omega
          · intro _; rw [← h]; rfl
      · simp only [Except.ok.injEq, response_unknown _ _ hname] at h
        have hU : Unknown q q1 := h.symm
        refine ⟨Or.inr (Or.inr hU), hexcl1, hexcl2, hexcl3, ⟨fun hD => ?_, fun hc => ?_⟩, ?_⟩
        · exact absurd ⟨hD, hU⟩ hexcl2
        · rw [← h] at hc
          have := hcalls_err ("Error: Unknown command \x27".toList
            ++ (parseCommand (readInput q.rx)).1 ++ "\x27".toList)
          simp only [Qlink.afterRead] at hc
          omega
        · intro _; rw [← h]; rfl

/-- C16: the tick on the line `say 123456789012345678901234567890`, a registered command
with a text of 30 characters, copies 31 bytes into `args[30]`: its behaviour is undefined
and it ends in none of the three outcomes. -/
theorem tick_outcome_overflow :
    "say 123456789012345678901234567890".toList.length = 34
    ∧ loop silent allocOk (start [sayCommand] "say 123456789012345678901234567890\n".toList)
      = .error Fault.argsBuffer := by
  decide

/-! ## Acceptance of the arguments -/

theorem parseParam_true_ne_none (tok : List Char) (ty : Args) :
    parseParam true tok ty ≠ .ok none := by
  cases ty with
  | INT =>
    simp only [parseParam, if_true]
    cases atoi tok <;> simp
  | FLOAT => simp [parseParam]
  | STRING => simp [parseParam]
  | LONG =>
    simp only [parseParam, if_true]
    split <;> simp

theorem convertArgs_total (alloc : Nat → Bool) (types : List Args)
    (halloc : ∀ i, alloc i = true) :
    ∀ (argv : List (List Char)) (i : Nat),
      (∀ k tok, argv.get? k = some tok →
        ∃ ty, types.get? (i + k) = some ty ∧ ∀ f, parseParam true tok ty ≠ .error f) →
      ∃ ps, convertArgs alloc types i argv = .ok (some ps) ∧ ps.length = argv.length
        ∧ ∀ k tok ty, argv.get? k = some tok → types.get? (i + k) = some ty →
            parseParam true tok ty = .ok (ps.get? k) := by
  intro argv
  induction argv with
  | nil =>
    intro i _
    exact ⟨[], by simp [convertArgs], rfl, by simp⟩
  | cons tok argv ih =>
    intro i hdef
    obtain ⟨ty, hty, hnf⟩ := hdef 0 tok (by simp)
    rw [Nat.add_zero] at hty
    obtain ⟨ps, hps, hlen, hidx⟩ := ih (i + 1) (fun k t hk => by
      have := hdef (k + 1) t (by simpa using hk)
      rwa [show i + (k + 1) = i + 1 + k by omega] at this)
    cases hp : parseParam true tok ty with
    | error f => exact absurd hp (hnf f)
    | ok r =>
      cases r with
      | none => exact absurd hp (parseParam_true_ne_none tok ty)
      | some p =>
        refine ⟨p :: ps, ?_, by simp [hlen], ?_⟩
        · simp only [convertArgs, hty, halloc i, hp, hps]
        · intro k t ty2 hk hty2
          cases k with
          | zero =>
            simp only [List.get?_cons_zero, Option.some.injEq] at hk
            rw [Nat.add_zero, hty, Option.some.injEq] at hty2
            subst hk; subst hty2
            simpa using hp
          | succ k =>
            simp only [List.get?_cons_succ] at hk ⊢
            exact hidx k t ty2 hk (by rwa [show i + (k + 1) = i + 1 + k by omega] at hty2)

/-- C17: let every allocation succeed, let the raw argument string fit `argsCopy[50]`, and
let the conversions the call would make be defined (the descriptor has a kind for each of
its `paramCount` parameters, a numeric token is in the range of its kind). Then
`parseAndValidateArgs` accepts if and only if the number of non-empty comma-free runs of
the string, capped at `MAX_VALUES`, equals `paramCount`, and rejects otherwise; and when it
accepts, it yields `paramCount` arguments, the one at index `i` being the conversion of
the `i`-th run under `paramTypes[i]`. -/
theorem accepts_iff_count (alloc : Nat → Bool) (args : List Char) (cmd : Command)
    (halloc : ∀ i, alloc i = true) (hlen : args.length < 50)
    (hdef : ∀ (k : Nat) (tok : List Char), (k : Int) < cmd.paramCount → k < MAX_VALUES →
      (commaRuns args).get? k = some tok →
      ∃ ty, cmd.paramTypes.get? k = some ty ∧ ∀ f, parseParam true tok ty ≠ .error f) :
    ((∃ params, parseAndValidateArgs alloc args cmd = .ok (some params))
        ↔ ((min (commaRuns args).length MAX_VALUES : Nat) : Int) = cmd.paramCount)
    ∧ (((min (commaRuns args).length MAX_VALUES : Nat) : Int) ≠ cmd.paramCount →
        parseAndValidateArgs alloc args cmd = .ok none)
    ∧ ∀ params, parseAndValidateArgs alloc args cmd = .ok (some params) →
        (params.length : Int) = cmd.paramCount
        ∧ ∀ (k : Nat) (tok : List Char) (ty : Args), (k : Int) < cmd.paramCount → (commaRuns args).get? k = some tok →
            cmd.paramTypes.get? k = some ty → parseParam true tok ty = .ok (params.get? k) := by
  have h1 : ¬ 50 ≤ args.length := by omega
  have hargv : collectArgv MAX_VALUES args = (commaRuns args).take MAX_VALUES :=
    collectArgv_eq MAX_VALUES args
  have hargc : ((commaRuns args).take MAX_VALUES).length
      = min (commaRuns args).length MAX_VALUES := by
    rw [List.length_take]; exact Nat.min_comm _ _
  have hreject : ((min (commaRuns args).length MAX_VALUES : Nat) : Int) ≠ cmd.paramCount →
      parseAndValidateArgs alloc args cmd = .ok none :=
    parseAndValidateArgs_count alloc args cmd hlen
  have haccept : ((min (commaRuns args).length MAX_VALUES : Nat) : Int) = cmd.paramCount →
      ∃ ps, parseAndValidateArgs alloc args cmd = .ok (some ps)
        ∧ (ps.length : Int) = cmd.paramCount
        ∧ ∀ k tok ty, ((commaRuns args).take MAX_VALUES).get? k = some tok →
            cmd.paramTypes.get? k = some ty → parseParam true tok ty = .ok (ps.get? k) := by
    intro hcount
    obtain ⟨ps, hps, hl, hidx⟩ := convertArgs_total alloc cmd.paramTypes halloc
      ((commaRuns args).take MAX_VALUES) 0 (fun k tok hk => by
        have hk3 : k < ((commaRuns args).take MAX_VALUES).length := by
          rw [List.get?_eq_some] at hk
          exact hk.1
        have hkm : k < MAX_VALUES := by
          rw [List.length_take] at hk3; omega
        have hkc : (k : Int) < cmd.paramCount := by
          rw [← hcount, ← hargc]; exact_mod_cast hk3
        rw [List.get?_eq_getElem?, List.getElem?_take_of_lt hkm, ← List.get?_eq_getElem?] at hk
        rw [Nat.zero_add]
        exact hdef k tok hkc hkm hk)
    refine ⟨ps, ?_, ?_, ?_⟩
    · unfold parseAndValidateArgs
      rw [if_neg h1]
      simp only [hargv]
      rw [if_neg (by rw [hargc]; exact not_not.mpr hcount)]
      exact hps
    · rw [hl, hargc]; exact hcount
    · intro k tok ty hk hty
      exact hidx k tok ty hk (by rwa [Nat.zero_add])
  refine ⟨⟨?_, fun hc => ?_⟩, hreject, ?_⟩
  · rintro ⟨params, hp⟩
    by_contra hne
    rw [hreject hne] at hp
    simp at hp
  · obtain ⟨ps, hps, _, _⟩ := haccept hc
    exact ⟨ps, hps⟩
  · intro params hp
    have hc : ((min (commaRuns args).length MAX_VALUES : Nat) : Int) = cmd.paramCount := by
      by_contra hne
      rw [hreject hne] at hp
      simp at hp
    obtain ⟨ps, hps, hl, hidx⟩ := haccept hc
    rw [hp] at hps
    simp only [Except.ok.injEq, Option.some.injEq] at hps
    subst hps
    refine ⟨hl, ?_⟩
    intro k tok ty hk hget hty
    have hkm : k < MAX_VALUES := by
      have : (k : Int) < ((min (commaRuns args).length MAX_VALUES : Nat) : Int) := by
        rw [hc]; exact hk
      have : k < min (commaRuns args).length MAX_VALUES := by exact_mod_cast this
      omega
    exact hidx k tok ty (by
      rw [List.get?_eq_getElem?, List.getElem?_take_of_lt hkm, ← List.get?_eq_getElem?]
      exact hget) hty

theorem accepts_iff_count_witness :
    ((∃ params, parseAndValidateArgs allocOk "12, x".toList putCommand = .ok (some params))
        ↔ ((min (commaRuns "12, x".toList).length MAX_VALUES : Nat) : Int)
            = putCommand.paramCount)
    ∧ (((min (commaRuns "12, x".toList).length MAX_VALUES : Nat) : Int) ≠ putCommand.paramCount →
        parseAndValidateArgs allocOk "12, x".toList putCommand = .ok none)
    ∧ ∀ params, parseAndValidateArgs allocOk "12, x".toList putCommand = .ok (some params) →
        (params.length : Int) = putCommand.paramCount
        ∧ ∀ (k : Nat) (tok : List Char) (ty : Args), (k : Int) < putCommand.paramCount →
            (commaRuns "12, x".toList).get? k = some tok →
            putCommand.paramTypes.get? k = some ty →
            parseParam true tok ty = .ok (params.get? k) :=
  accepts_iff_count allocOk "12, x".toList putCommand (fun _ => rfl) (by decide)
    (fun k tok hk _ hget => by
      have hruns : commaRuns "12, x".toList = ["12".toList, " x".toList] := by decide
      rw [hruns] at hget
      have hk2 : k < 2 := by
        have : putCommand.paramCount = 2 := rfl
        rw [this] at hk
        exact_mod_cast hk
      have hcases : k = 0 ∨ k = 1 := by omega
      rcases hcases with rfl | rfl
      · simp only [List.get?_cons_zero, Option.some.injEq] at hget
        subst hget
        exact ⟨Args.INT, rfl, fun f => by
          rw [show parseParam true "12".toList Args.INT = .ok (some (Param.int 12)) by decide]
          simp⟩
      · simp only [List.get?_cons_succ, List.get?_cons_zero, Option.some.injEq] at hget
        subst hget
        exact ⟨Args.STRING, rfl, fun f => by
          rw [show parseParam true " x".toList Args.STRING
            = .ok (some (Param.str " x".toList)) by decide]
          simp⟩)

/-- The arguments `12, x` of `put`: two runs, accepted, with the values 12 and ` x`. -/
theorem accepts_example :
    parseAndValidateArgs allocOk "12, x".toList putCommand
      = .ok (some [Param.int 12, Param.str " x".toList]) := by
  decide

end QlinkLib
